import Mathlib

/-
Shallow embedding of the V2Drum / V2FSR pressure-to-events component
(versioduo/V2Drum, files src/V2Drum.h and src/V2FSR.h; the two classes are
the same design, differing only in the time-source API, so one embedding
covers both).

Modelling conventions:
* C floats are modelled as rationals (ℚ).  The transcendental `powf`
  correction curve cannot be a computable rational function, so the
  configuration carries an abstract curve `powf : ℚ → ℚ → ℚ`; it is applied
  exactly where the source applies `powf(x, exponent)`.
* The microsecond counter is a natural number; the source computes elapsed
  spans with wrap-safe `uint32_t` subtraction, modelled as
  `(t - x) % 2^32` for a monotonic counter (`usecSince`).
* `roundf` rounds half away from zero; `ceilf` is `Int.ceil`; a float
  stored into an unsigned integer truncates toward zero.
* `_pressure.step` is a `uint8_t` in the source, so storing the `uint16_t`
  step into it keeps only the low byte (`% 256`).
* Velocities (`uint8_t` in the source, assigned from floats that stay in
  range for the configurations of interest) are kept as integers.
* Each call of the source's `loop()` ("tick") is a function from the
  instance state, the current time and the analog sample to the new state
  plus the ordered list of callback invocations (events) it performs.
-/

namespace V2Drum

/-- The six states of the hit/release state machine. -/
inductive State
  | Idle
  | Rising
  | Hit
  | HitHold
  | HitRelease
  | Release
deriving DecidableEq, Repr

/-- Static configuration, mirroring `V2Drum::Config`.  The `powf` field
abstracts the C library power function used with the two configured
exponents. -/
structure Config where
  nSteps : Nat
  alpha : ℚ
  lag : ℚ
  pressureMin : ℚ
  pressureMax : ℚ
  pressureExponent : ℚ
  hitMin : ℚ
  hitMax : ℚ
  hitExponent : ℚ
  hitRisingUsec : Nat
  hitHoldUsec : Nat
  hitPressureDelayUsec : Nat
  hitReleaseUsec : Nat
  releaseMinUsec : ℚ
  releaseMaxUsec : ℚ
  powf : ℚ → ℚ → ℚ

/-- The `_now` state group. -/
structure NowState where
  state : State := State.Idle
  usec : Nat := 0
  analog : ℚ := 0
  fraction : ℚ := 0
  step : Nat := 0
deriving DecidableEq, Repr

/-- The `_history` state group (filter memory and hysteresis edge). -/
structure HistoryState where
  analog : ℚ := 0
  lag : ℚ := 0
deriving DecidableEq, Repr

/-- The `_pressure` state group (last recorded emission bookkeeping).
`step` is a `uint8_t` in the source. -/
structure PressureState where
  fraction : ℚ := 0
  step : Nat := 0
  usec : Nat := 0
  enabled : Bool := false
  sent : Bool := false
  rawSent : Bool := false
deriving DecidableEq, Repr

/-- The `_rising` state group (peak fraction and rise-start time). -/
structure RisingState where
  pressure : ℚ := 0
  usec : Nat := 0
deriving DecidableEq, Repr

/-- The `_hit` state group. -/
structure HitState where
  velocity : ℤ := 0
  usec : Nat := 0
  holdUsec : Nat := 0
  releaseUsec : Nat := 0
deriving DecidableEq, Repr

/-- The `_falling` state group. -/
structure FallingState where
  usec : Nat := 0
  step : Nat := 0
  velocity : ℤ := 0
deriving DecidableEq, Repr

/-- The full runtime state of one component instance. -/
structure Drum where
  now : NowState := {}
  history : HistoryState := {}
  pressure : PressureState := {}
  rising : RisingState := {}
  hit : HitState := {}
  falling : FallingState := {}
deriving DecidableEq, Repr

/-- The zero-value state produced by construction and by `reset()`. -/
def init : Drum := {}

/-- `reset()` clears every state group. -/
def reset (_d : Drum) : Drum := init

/-- One callback invocation performed by a tick, in source order:
`handlePressureRaw`, `handlePressure`, `handleHit`, `handleRelease`. -/
inductive Event
  | pressureRaw (fraction : ℚ) (step : Nat)
  | pressure (fraction : ℚ) (step : Nat)
  | hit (velocity : ℤ)
  | release (velocity : ℤ)
deriving DecidableEq, Repr

/-- Wrap-safe elapsed microseconds: `(uint32_t)(t - x)` for a monotonic
counter read `t` and a stored timestamp `x`. -/
def usecSince (t x : Nat) : Nat := (t - x) % 2 ^ 32

/-- C `roundf`: round half away from zero. -/
def roundAway (x : ℚ) : ℤ := if 0 ≤ x then ⌊x + 1 / 2⌋ else ⌈x - 1 / 2⌉

/-- C float-to-integer conversion: truncation toward zero. -/
def ftrunc (x : ℚ) : ℤ := if 0 ≤ x then ⌊x⌋ else ⌈x⌉

/-- `V2Drum::measure()`: low-pass filter, range clamp / normalization,
correction curve, hysteresis quantization.  Touches only `_now` (analog,
fraction, step) and `_history`. -/
def measure (cfg : Config) (d : Drum) (sample : ℚ) : Drum :=
  let analog := d.history.analog * (1 - cfg.alpha) + sample * cfg.alpha
  if analog < cfg.pressureMin then
    { d with
      now := { d.now with analog := sample, fraction := 0, step := 0 },
      history := { analog := analog, lag := 0 - cfg.lag } }
  else if analog > cfg.pressureMax then
    { d with
      now := { d.now with analog := sample, fraction := 1, step := cfg.nSteps - 1 },
      history := { analog := analog, lag := 1 + cfg.lag } }
  else
    let fraction :=
      cfg.powf ((analog - cfg.pressureMin) / (cfg.pressureMax - cfg.pressureMin))
        cfg.pressureExponent
    let step :=
      if cfg.lag ≤ |fraction - d.history.lag| then
        (roundAway (fraction * ((cfg.nSteps : ℚ) - 1))).toNat
      else d.pressure.step
    { d with
      now := { d.now with analog := sample, fraction := fraction, step := step },
      history := { analog := analog, lag := d.history.lag } }

/-- `V2Drum::sendPressure()`: emit pressure events on an accepted step
change (rate-limited to one per 20 ms), repositioning the hysteresis edge
and recording the emitted values; a change to step 0 only records. -/
def sendPressure (cfg : Config) (d : Drum) (t : Nat) : Drum × List Event :=
  if d.pressure.step = d.now.step then (d, [])
  else if usecSince t d.pressure.usec < 20000 then (d, [])
  else
    let lagEdge :=
      if 0 < d.now.fraction - d.history.lag then d.now.fraction - cfg.lag
      else d.now.fraction + cfg.lag
    let d' :=
      { d with
        history := { d.history with lag := lagEdge },
        pressure := { d.pressure with
                      usec := t, fraction := d.now.fraction, step := d.now.step % 256 } }
    if d.now.step = 0 then (d', [])
    else if d.pressure.enabled then
      ({ d' with pressure := { d'.pressure with sent := true, rawSent := true } },
        [Event.pressure d.now.fraction d.now.step,
          Event.pressureRaw d.now.fraction d.now.step])
    else
      ({ d' with pressure := { d'.pressure with rawSent := true } },
        [Event.pressureRaw d.now.fraction d.now.step])

/-- The `switch (_now.state)` body of `V2Drum::loop()`. -/
def machineStep (cfg : Config) (d : Drum) (t : Nat) : Drum × List Event :=
  match d.now.state with
  | State.Idle =>
    if d.now.step = 0 then (d, [])
    else
      ({ d with
         rising := { d.rising with usec := t },
         now := { d.now with state := State.Rising } }, [])
  | State.Rising =>
    if d.now.step = 0 then
      ({ d with now := { d.now with state := State.Release } }, [])
    else
      let d1 :=
        if d.rising.pressure < d.now.fraction then
          { d with rising := { d.rising with pressure := d.now.fraction } }
        else d
      if usecSince t d1.rising.usec < cfg.hitRisingUsec then (d1, [])
      else if d1.rising.pressure ≤ cfg.hitMin then
        ({ d1 with
           pressure := { d1.pressure with enabled := true },
           now := { d1.now with state := State.Release } }, [])
      else ({ d1 with now := { d1.now with state := State.Hit } }, [])
  | State.Hit =>
    let peak := if cfg.hitMax < d.rising.pressure then cfg.hitMax else d.rising.pressure
    let fraction := cfg.powf ((peak - cfg.hitMin) / (cfg.hitMax - cfg.hitMin)) cfg.hitExponent
    let v := ⌈fraction * ((cfg.nSteps : ℚ) - 1)⌉
    ({ d with
       rising := { d.rising with pressure := peak },
       hit := { d.hit with velocity := v, usec := t },
       now := { d.now with state := State.HitHold } },
      [Event.hit v])
  | State.HitHold =>
    let d1 :=
      if d.hit.holdUsec = 0 then
        { d with
          hit := { d.hit with holdUsec := t },
          falling := { d.falling with usec := t } }
      else d
    if usecSince t d1.hit.holdUsec < cfg.hitHoldUsec then (d1, [])
    else
      let d2 :=
        if d1.falling.step ≤ d1.now.step then
          { d1 with falling := { d1.falling with usec := t, step := d1.now.step } }
        else d1
      if d2.now.step = 0 then
        ({ d2 with
           pressure := { d2.pressure with enabled := true },
           now := { d2.now with state := State.HitRelease } }, [])
      else if cfg.hitPressureDelayUsec < usecSince t d2.hit.holdUsec then
        ({ d2 with pressure := { d2.pressure with enabled := true } }, [])
      else (d2, [])
  | State.HitRelease =>
    let dur := usecSince t d.falling.usec
    let durClamped : Nat :=
      if cfg.releaseMaxUsec < (dur : ℚ) then (⌊cfg.releaseMaxUsec⌋).toNat
      else if (dur : ℚ) < cfg.releaseMinUsec then (⌊cfg.releaseMinUsec⌋).toNat
      else dur
    let fraction :=
      ((durClamped : ℚ) - cfg.releaseMinUsec) / (cfg.releaseMaxUsec - cfg.releaseMinUsec)
    let v := ftrunc (127 - fraction * 126)
    ({ d with
       hit := { d.hit with releaseUsec := t },
       falling := { d.falling with velocity := v },
       now := { d.now with state := State.Release } },
      [Event.release v])
  | State.Release =>
    if 0 < d.now.fraction then (d, [])
    else if usecSince t d.hit.releaseUsec < cfg.hitReleaseUsec then (d, [])
    else
      ({ d with now := {}, rising := {}, hit := {}, pressure := {} },
        (if d.pressure.sent then [Event.pressure 0 0] else []) ++
          (if d.pressure.rawSent then [Event.pressureRaw 0 0] else []))

/-- One invocation of `V2Drum::loop()` at time `t` with analog sample
`sample`: self-throttle at 500 μs, then measure, send pressure events, and
advance the state machine.  Returns the new state and the events emitted,
in order. -/
def loop (cfg : Config) (d : Drum) (t : Nat) (sample : ℚ) : Drum × List Event :=
  if usecSince t d.now.usec < 500 then (d, [])
  else
    let d1 := measure cfg { d with now := { d.now with usec := t } } sample
    let r2 := sendPressure cfg d1 t
    let r3 := machineStep cfg r2.1 t
    (r3.1, r2.2 ++ r3.2)

/-- `V2Drum::getFraction()`. -/
def getFraction (d : Drum) : ℚ := d.pressure.fraction

/-- `V2Drum::getStep()`. -/
def getStep (d : Drum) : Nat := d.pressure.step

/-- Run a sequence of ticks, collecting all emitted events in order. -/
def run (cfg : Config) (d : Drum) : List (Nat × ℚ) → Drum × List Event
  | [] => (d, [])
  | (t, s) :: rest =>
    let r := loop cfg d t s
    let rr := run cfg r.1 rest
    (rr.1, r.2 ++ rr.2)

/-- A state is reachable when some tick sequence from the reset state
produces it. -/
def Reachable (cfg : Config) (d : Drum) : Prop :=
  ∃ ins, (run cfg init ins).1 = d

/-- Record of one tick of an execution: state before, state after, and the
events the tick emitted. -/
structure TickRec where
  pre : Drum
  post : Drum
  evs : List Event
deriving DecidableEq, Repr

/-- Per-tick records of a run. -/
def trace (cfg : Config) (d : Drum) : List (Nat × ℚ) → List TickRec
  | [] => []
  | (t, s) :: rest =>
    let r := loop cfg d t s
    ⟨d, r.1, r.2⟩ :: trace cfg r.1 rest

/-- A tick completes a cycle when it moves the machine from `Release`
back to `Idle`. -/
def clearsB (r : TickRec) : Bool :=
  decide (r.pre.now.state = State.Release) && decide (r.post.now.state = State.Idle)

/-- Whether an event list contains a confirmed-pressure event with a
non-zero step. -/
def nonzeroConfirmed (evs : List Event) : Bool :=
  evs.any fun e =>
    match e with
    | Event.pressure _ st => decide (st ≠ 0)
    | _ => false

/-- Whether an event list contains a raw-pressure event with a non-zero
step. -/
def nonzeroRaw (evs : List Event) : Bool :=
  evs.any fun e =>
    match e with
    | Event.pressureRaw _ st => decide (st ≠ 0)
    | _ => false

/-- Fold over tick records: whether a terminal zero of the kind detected
by `f` is owed (a matching non-zero event was emitted since the last
completed cycle).  This is the specification-level meaning of the
`_pressure.sent` / `_pressure.rawSent` flags. -/
def owedAfter (f : List Event → Bool) (b : Bool) : List TickRec → Bool
  | [] => b
  | r :: rest => owedAfter f (if clearsB r then false else (b || f r.evs)) rest

/-- The velocity the `Hit` state computes from a recorded peak `p`:
clamp to `hit.max`, normalize over `[hit.min, hit.max]`, apply the
correction curve, scale to the step range and round up. -/
def hitVelocity (cfg : Config) (p : ℚ) : ℤ :=
  ⌈cfg.powf (((if cfg.hitMax < p then cfg.hitMax else p) - cfg.hitMin) /
      (cfg.hitMax - cfg.hitMin)) cfg.hitExponent * ((cfg.nSteps : ℚ) - 1)⌉

/-- The velocity the `HitRelease` state computes at time `t` from the
fall-start timestamp `u`: elapsed duration clamped into
`[release.minUsec, release.maxUsec]`, normalized, mapped linearly onto
`127` down to `1` and truncated toward zero. -/
def releaseVelocity (cfg : Config) (t u : Nat) : ℤ :=
  ftrunc (127 -
    (((if cfg.releaseMaxUsec < (usecSince t u : ℚ) then (⌊cfg.releaseMaxUsec⌋).toNat
       else if (usecSince t u : ℚ) < cfg.releaseMinUsec then (⌊cfg.releaseMinUsec⌋).toNat
       else usecSince t u : Nat) - cfg.releaseMinUsec) /
      (cfg.releaseMaxUsec - cfg.releaseMinUsec)) * 126)

/-- The state after the measure phase of a non-throttled tick. -/
def afterMeasure (cfg : Config) (d : Drum) (t : Nat) (s : ℚ) : Drum :=
  measure cfg { d with now := { d.now with usec := t } } s

/-- The state and events after the pressure-send phase of a non-throttled
tick. -/
def afterSend (cfg : Config) (d : Drum) (t : Nat) (s : ℚ) : Drum × List Event :=
  sendPressure cfg (afterMeasure cfg d t s) t

/-- The conditioned fraction a tick computes from state `d` and sample
`s` when the filtered value stays inside the configured pressure range:
low-pass filter, normalize, correction curve. -/
def condFraction (cfg : Config) (d : Drum) (s : ℚ) : ℚ :=
  cfg.powf ((d.history.analog * (1 - cfg.alpha) + s * cfg.alpha - cfg.pressureMin) /
    (cfg.pressureMax - cfg.pressureMin)) cfg.pressureExponent

/-- Step-range invariant: both the current quantized step and the recorded
pressure step are below the configured resolution. -/
def StepInv (cfg : Config) (d : Drum) : Prop :=
  d.now.step < cfg.nSteps ∧ d.pressure.step < cfg.nSteps

/-- Before a hit decision (states `Idle`, `Rising`, `Hit`) the
confirmed-pressure gate is closed. -/
def EnabledInv (d : Drum) : Prop :=
  d.now.state = State.Idle ∨ d.now.state = State.Rising ∨ d.now.state = State.Hit →
    d.pressure.enabled = false

/-- In the `Hit` state the recorded rising peak exceeds `hit.min`. -/
def HitPeakInv (cfg : Config) (d : Drum) : Prop :=
  d.now.state = State.Hit → cfg.hitMin < d.rising.pressure

/-- The pressure correction curve maps the unit interval into itself (as
the C `powf` does for any non-negative exponent). -/
def PowUnit (cfg : Config) : Prop :=
  ∀ x : ℚ, 0 ≤ x → x ≤ 1 →
    0 ≤ cfg.powf x cfg.pressureExponent ∧ cfg.powf x cfg.pressureExponent ≤ 1

/-- The hit correction curve sends positive fractions of the unit interval
to positive values (as the C `powf` does for any positive exponent). -/
def PowPos (cfg : Config) : Prop :=
  ∀ x : ℚ, 0 < x → x ≤ 1 → 0 < cfg.powf x cfg.hitExponent

/-- The identity correction curve: what `powf` computes when the
configured exponent is one. -/
def powId : ℚ → ℚ → ℚ := fun x _ => x

/-- A small concrete configuration used to evaluate the machine:
128 steps, no smoothing, no hysteresis, hit window `[0.1, 0.9]` judged
over 1 ms, release velocity measured over `[5 ms, 50 ms]`, exponents one. -/
def cfgA : Config :=
  { nSteps := 128, alpha := 1, lag := 0,
    pressureMin := 0, pressureMax := 1, pressureExponent := 1,
    hitMin := 1/10, hitMax := 9/10, hitExponent := 1,
    hitRisingUsec := 1000, hitHoldUsec := 0, hitPressureDelayUsec := 1000000000,
    hitReleaseUsec := 0, releaseMinUsec := 5000, releaseMaxUsec := 50000,
    powf := powId }

/-- Variant of `cfgA` with 201 steps and hysteresis lag `0.05`, for the
hysteresis claims. -/
def cfgB : Config :=
  { cfgA with nSteps := 201, lag := 1/20, hitRisingUsec := 1000000 }

/-- Variant of `cfgA` with two steps, smoothing `alpha = 1/2` and active
range `[1/4, 3/4]`, for the cycle claims. -/
def cfgC : Config :=
  { cfgA with
    nSteps := 2
    alpha := 1/2
    pressureMin := 1/4
    pressureMax := 3/4
    hitRisingUsec := 1000000 }

/-- Variant of `cfgA` with four steps and lag `0.1`, for the getter
claims. -/
def cfgD : Config :=
  { cfgA with nSteps := 4, lag := 1/10, hitRisingUsec := 1000000 }

/-- Variant of `cfgA` with 101 steps and pressure exponent `-1`
(`powf x (-1) = x⁻¹`), for the step-range claim. -/
def cfgE : Config :=
  { cfgA with
    nSteps := 101
    pressureExponent := -1
    powf := fun x e => if e = 1 then x else x⁻¹ }

/-- Tick inputs driving `cfgA` from reset into the `Rising` state. -/
def insA1 : List (Nat × ℚ) := [(25000, 1/2)]

/-- Tick inputs driving `cfgA` from reset into the `Hit` state. -/
def insA2 : List (Nat × ℚ) := [(25000, 1/2), (26000, 1/2)]

/-- Tick inputs driving `cfgA` from reset into the `HitRelease` state. -/
def insA4 : List (Nat × ℚ) :=
  [(25000, 1/2), (26000, 1/2), (26600, 1/2), (27200, 0)]

/-- Tick inputs driving `cfgA` from reset through a hit and its release
event 5450 μs after the fall began. -/
def insA5 : List (Nat × ℚ) :=
  [(25000, 1/2), (26000, 1/2), (26600, 1/2), (27200, 0), (32650, 0)]

/-- Tick inputs driving `cfgC` from reset around one full
`Idle`-to-`Idle` cycle. -/
def insC : List (Nat × ℚ) := [(25000, 1), (50000, 0), (51000, 0)]

/-- Tick inputs driving `cfgD`: one emitted step, then a silent return to
step zero. -/
def insD : List (Nat × ℚ) := [(25000, 9/10), (50000, 0)]

/-- The `Rising` state reached by `insA1`. -/
def dRiseA : Drum := (run cfgA init insA1).1

/-- The `Hit` state reached by `insA2`. -/
def dHitA : Drum := (run cfgA init insA2).1

/-- The `HitRelease` state reached by `insA4`. -/
def dHRA : Drum := (run cfgA init insA4).1

/-- The post-emission `Rising` state of `cfgB` with the hysteresis edge
snapped to `0.45`: the last emitted motion was upward (step 100 at
fraction `0.5`). -/
def dB1 : Drum := (run cfgB init [(25000, 1/2)]).1

/-- The post-emission `Rising` state of `cfgB` with the hysteresis edge
snapped to `0.35`: the last emitted motion was downward (step 60 at
fraction `0.3`, after the upward emission of step 100 at `0.5`). -/
def dB2 : Drum := (run cfgB init [(25000, 1/2), (50000, 3/10)]).1

/-- The `Release` state of the `cfgC` cycle just before it returns to
`Idle`. -/
def dC2 : Drum := (run cfgC init (insC.take 2)).1

/-! ### Lemmas about `measure` -/

theorem measure_state (cfg : Config) (d : Drum) (s : ℚ) :
    (measure cfg d s).now.state = d.now.state := by
  simp only [measure]
  split
  · rfl
  split
  · rfl
  · rfl

theorem measure_now_usec (cfg : Config) (d : Drum) (s : ℚ) :
    (measure cfg d s).now.usec = d.now.usec := by
  simp only [measure]
  split
  · rfl
  split
  · rfl
  · rfl

theorem measure_pressure (cfg : Config) (d : Drum) (s : ℚ) :
    (measure cfg d s).pressure = d.pressure := by
  simp only [measure]
  split
  · rfl
  split
  · rfl
  · rfl

theorem measure_rising (cfg : Config) (d : Drum) (s : ℚ) :
    (measure cfg d s).rising = d.rising := by
  simp only [measure]
  split
  · rfl
  split
  · rfl
  · rfl

theorem measure_hit (cfg : Config) (d : Drum) (s : ℚ) :
    (measure cfg d s).hit = d.hit := by
  simp only [measure]
  split
  · rfl
  split
  · rfl
  · rfl

theorem measure_falling (cfg : Config) (d : Drum) (s : ℚ) :
    (measure cfg d s).falling = d.falling := by
  simp only [measure]
  split
  · rfl
  split
  · rfl
  · rfl

/-! ### Lemmas about `sendPressure` -/

theorem sendPressure_now (cfg : Config) (d : Drum) (t : Nat) :
    (sendPressure cfg d t).1.now = d.now := by
  simp only [sendPressure]
  split
  · rfl
  split
  · rfl
  split
  · rfl
  split
  · rfl
  · rfl

theorem sendPressure_rising (cfg : Config) (d : Drum) (t : Nat) :
    (sendPressure cfg d t).1.rising = d.rising := by
  simp only [sendPressure]
  split
  · rfl
  split
  · rfl
  split
  · rfl
  split
  · rfl
  · rfl

theorem sendPressure_hit (cfg : Config) (d : Drum) (t : Nat) :
    (sendPressure cfg d t).1.hit = d.hit := by
  simp only [sendPressure]
  split
  · rfl
  split
  · rfl
  split
  · rfl
  split
  · rfl
  · rfl

theorem sendPressure_falling (cfg : Config) (d : Drum) (t : Nat) :
    (sendPressure cfg d t).1.falling = d.falling := by
  simp only [sendPressure]
  split
  · rfl
  split
  · rfl
  split
  · rfl
  split
  · rfl
  · rfl

theorem sendPressure_enabled (cfg : Config) (d : Drum) (t : Nat) :
    (sendPressure cfg d t).1.pressure.enabled = d.pressure.enabled := by
  simp only [sendPressure]
  split
  · rfl
  split
  · rfl
  split
  · rfl
  split
  · rfl
  · rfl

/-- Every event `sendPressure` emits is a pressure event carrying the
current fraction and (non-zero) step. -/
theorem sendPressure_events (cfg : Config) (d : Drum) (t : Nat) :
    ∀ e ∈ (sendPressure cfg d t).2,
      (e = Event.pressure d.now.fraction d.now.step ∨
        e = Event.pressureRaw d.now.fraction d.now.step) ∧ d.now.step ≠ 0 := by
  simp only [sendPressure]
  split
  · simp
  split
  · simp
  split
  · simp
  split
  · intro e he
    rename_i hne hrate hstep hen
    simp only [List.mem_cons, List.not_mem_nil, or_false] at he
    rcases he with he | he
    · exact ⟨Or.inl he, hstep⟩
    · exact ⟨Or.inr he, hstep⟩
  · intro e he
    rename_i hne hrate hstep hen
    simp only [List.mem_cons, List.not_mem_nil, or_false] at he
    exact ⟨Or.inr he, hstep⟩

theorem sendPressure_sent (cfg : Config) (d : Drum) (t : Nat) :
    (sendPressure cfg d t).1.pressure.sent =
      (d.pressure.sent || nonzeroConfirmed (sendPressure cfg d t).2) := by
  simp only [sendPressure]
  split
  · simp [nonzeroConfirmed]
  split
  · simp [nonzeroConfirmed]
  split
  · simp [nonzeroConfirmed]
  split
  · rename_i hne hrate hstep hen
    simp [nonzeroConfirmed, hstep]
  · simp [nonzeroConfirmed]

theorem sendPressure_rawSent (cfg : Config) (d : Drum) (t : Nat) :
    (sendPressure cfg d t).1.pressure.rawSent =
      (d.pressure.rawSent || nonzeroRaw (sendPressure cfg d t).2) := by
  simp only [sendPressure]
  split
  · simp [nonzeroRaw]
  split
  · simp [nonzeroRaw]
  split
  · simp [nonzeroRaw]
  split
  · rename_i hne hrate hstep hen
    simp [nonzeroRaw, hstep]
  · rename_i hne hrate hstep hen
    simp [nonzeroRaw, hstep]

theorem sendPressure_count_pz (cfg : Config) (d : Drum) (t : Nat) :
    List.count (Event.pressure 0 0) (sendPressure cfg d t).2 = 0 := by
  rw [List.count_eq_zero]
  intro hmem
  rcases sendPressure_events cfg d t _ hmem with ⟨h | h, hst⟩
  · injection h with h1 h2
    exact hst h2.symm
  · exact Event.noConfusion h

theorem sendPressure_count_rz (cfg : Config) (d : Drum) (t : Nat) :
    List.count (Event.pressureRaw 0 0) (sendPressure cfg d t).2 = 0 := by
  rw [List.count_eq_zero]
  intro hmem
  rcases sendPressure_events cfg d t _ hmem with ⟨h | h, hst⟩
  · exact Event.noConfusion h
  · injection h with h1 h2
    exact hst h2.symm

/-! ### Lemmas about `machineStep` -/

theorem machineStep_hit_only (cfg : Config) (d : Drum) (t : Nat) :
    ∀ v, Event.hit v ∈ (machineStep cfg d t).2 → d.now.state = State.Hit := by
  intro v hv
  rcases hs : d.now.state
  case Hit => rfl
  all_goals
    exfalso
    simp only [machineStep, hs] at hv
    repeat' split at hv
    all_goals simp at hv

/-- In the `Hit` state a tick of the machine emits exactly one hit event,
carrying `hitVelocity` of the recorded peak, and moves to `HitHold`. -/
theorem machineStep_hit_eq (cfg : Config) (d : Drum) (t : Nat)
    (h : d.now.state = State.Hit) :
    machineStep cfg d t =
      ({ d with
         rising := { d.rising with
                     pressure := if cfg.hitMax < d.rising.pressure then cfg.hitMax
                       else d.rising.pressure },
         hit := { d.hit with velocity := hitVelocity cfg d.rising.pressure, usec := t },
         now := { d.now with state := State.HitHold } },
        [Event.hit (hitVelocity cfg d.rising.pressure)]) := by
  simp only [machineStep, h]
  rfl

/-- In the `HitRelease` state a tick of the machine emits exactly one
release event, carrying `releaseVelocity` of the fall duration, and moves
to `Release`. -/
theorem machineStep_hitrelease_eq (cfg : Config) (d : Drum) (t : Nat)
    (h : d.now.state = State.HitRelease) :
    machineStep cfg d t =
      ({ d with
         hit := { d.hit with releaseUsec := t },
         falling := { d.falling with velocity := releaseVelocity cfg t d.falling.usec },
         now := { d.now with state := State.Release } },
        [Event.release (releaseVelocity cfg t d.falling.usec)]) := by
  simp only [machineStep, h]
  rfl

theorem machineStep_release_noclear (cfg : Config) (d : Drum) (t : Nat)
    (h : d.now.state = State.Release)
    (hc : 0 < d.now.fraction ∨ usecSince t d.hit.releaseUsec < cfg.hitReleaseUsec) :
    machineStep cfg d t = (d, []) := by
  simp only [machineStep, h]
  rcases hc with hc | hc
  · rw [if_pos hc]
  · rw [if_pos hc]
    split <;> rfl

theorem machineStep_release_clear (cfg : Config) (d : Drum) (t : Nat)
    (h : d.now.state = State.Release)
    (h1 : ¬0 < d.now.fraction)
    (h2 : ¬usecSince t d.hit.releaseUsec < cfg.hitReleaseUsec) :
    machineStep cfg d t =
      ({ d with now := {}, rising := {}, hit := {}, pressure := {} },
        (if d.pressure.sent then [Event.pressure 0 0] else []) ++
          (if d.pressure.rawSent then [Event.pressureRaw 0 0] else [])) := by
  simp only [machineStep, h]
  rw [if_neg h1, if_neg h2]

/-- Outside the `Release` state the machine never touches the recorded
pressure values, the sent flags, or emits any pressure-kind event. -/
theorem machineStep_pressure_eq (cfg : Config) (d : Drum) (t : Nat)
    (h : d.now.state ≠ State.Release) :
    (machineStep cfg d t).1.pressure.sent = d.pressure.sent ∧
    (machineStep cfg d t).1.pressure.rawSent = d.pressure.rawSent ∧
    (machineStep cfg d t).1.pressure.fraction = d.pressure.fraction ∧
    (machineStep cfg d t).1.pressure.step = d.pressure.step ∧
    (machineStep cfg d t).1.pressure.usec = d.pressure.usec ∧
    List.count (Event.pressure 0 0) (machineStep cfg d t).2 = 0 ∧
    List.count (Event.pressureRaw 0 0) (machineStep cfg d t).2 = 0 ∧
    nonzeroConfirmed (machineStep cfg d t).2 = false ∧
    nonzeroRaw (machineStep cfg d t).2 = false := by
  rcases hs : d.now.state
  case Release => exact absurd hs h
  all_goals
    simp only [machineStep, hs]
    repeat' split
    all_goals simp [nonzeroConfirmed, nonzeroRaw]

/-- A machine step leaves the quantized step unchanged unless it clears
the whole cycle, which zeroes it. -/
theorem machineStep_step_cases (cfg : Config) (d : Drum) (t : Nat) :
    (machineStep cfg d t).1.now.step = d.now.step ∨ (machineStep cfg d t).1.now.step = 0 := by
  rcases hs : d.now.state
  all_goals
    simp only [machineStep, hs]
    repeat' split
    all_goals simp

theorem machineStep_pstep_cases (cfg : Config) (d : Drum) (t : Nat) :
    (machineStep cfg d t).1.pressure.step = d.pressure.step ∨
      (machineStep cfg d t).1.pressure.step = 0 := by
  rcases hs : d.now.state
  all_goals
    simp only [machineStep, hs]
    repeat' split
    all_goals simp

/-- The only confirmed-pressure events a machine step can emit are the
terminal zeros of a `Release` to `Idle` transition. -/
theorem machineStep_pressure_mem (cfg : Config) (d : Drum) (t : Nat) :
    ∀ f st, Event.pressure f st ∈ (machineStep cfg d t).2 →
      f = 0 ∧ st = 0 ∧ d.now.state = State.Release := by
  intro f st hmem
  rcases hs : d.now.state
  case Release =>
    refine ⟨?_, ?_, rfl⟩ <;>
    · simp only [machineStep, hs] at hmem
      repeat' split at hmem
      all_goals simp_all
  all_goals
    exfalso
    simp only [machineStep, hs] at hmem
    repeat' split at hmem
    all_goals simp at hmem

theorem machineStep_raw_mem (cfg : Config) (d : Drum) (t : Nat) :
    ∀ f st, Event.pressureRaw f st ∈ (machineStep cfg d t).2 →
      f = 0 ∧ st = 0 ∧ d.now.state = State.Release := by
  intro f st hmem
  rcases hs : d.now.state
  case Release =>
    refine ⟨?_, ?_, rfl⟩ <;>
    · simp only [machineStep, hs] at hmem
      repeat' split at hmem
      all_goals simp_all
  all_goals
    exfalso
    simp only [machineStep, hs] at hmem
    repeat' split at hmem
    all_goals simp at hmem

/-! ### Lemmas about `loop` -/

theorem nonzeroConfirmed_append (a b : List Event) :
    nonzeroConfirmed (a ++ b) = (nonzeroConfirmed a || nonzeroConfirmed b) :=
  List.any_append

theorem nonzeroRaw_append (a b : List Event) :
    nonzeroRaw (a ++ b) = (nonzeroRaw a || nonzeroRaw b) :=
  List.any_append

theorem loop_throttle (cfg : Config) (d : Drum) (t : Nat) (s : ℚ)
    (h : usecSince t d.now.usec < 500) : loop cfg d t s = (d, []) := by
  rw [loop, if_pos h]

theorem loop_eq (cfg : Config) (d : Drum) (t : Nat) (s : ℚ)
    (h : ¬usecSince t d.now.usec < 500) :
    loop cfg d t s =
      ((machineStep cfg (afterSend cfg d t s).1 t).1,
        (afterSend cfg d t s).2 ++ (machineStep cfg (afterSend cfg d t s).1 t).2) := by
  rw [loop, if_neg h]
  rfl

theorem afterMeasure_state (cfg : Config) (d : Drum) (t : Nat) (s : ℚ) :
    (afterMeasure cfg d t s).now.state = d.now.state := by
  rw [afterMeasure, measure_state]

theorem afterMeasure_usec (cfg : Config) (d : Drum) (t : Nat) (s : ℚ) :
    (afterMeasure cfg d t s).now.usec = t := by
  rw [afterMeasure, measure_now_usec]

theorem afterMeasure_pressure (cfg : Config) (d : Drum) (t : Nat) (s : ℚ) :
    (afterMeasure cfg d t s).pressure = d.pressure := by
  rw [afterMeasure, measure_pressure]

theorem afterMeasure_rising (cfg : Config) (d : Drum) (t : Nat) (s : ℚ) :
    (afterMeasure cfg d t s).rising = d.rising := by
  rw [afterMeasure, measure_rising]

theorem afterMeasure_hit (cfg : Config) (d : Drum) (t : Nat) (s : ℚ) :
    (afterMeasure cfg d t s).hit = d.hit := by
  rw [afterMeasure, measure_hit]

theorem afterMeasure_falling (cfg : Config) (d : Drum) (t : Nat) (s : ℚ) :
    (afterMeasure cfg d t s).falling = d.falling := by
  rw [afterMeasure, measure_falling]

theorem afterSend_state (cfg : Config) (d : Drum) (t : Nat) (s : ℚ) :
    (afterSend cfg d t s).1.now.state = d.now.state := by
  rw [afterSend, sendPressure_now, afterMeasure_state]

theorem afterSend_now (cfg : Config) (d : Drum) (t : Nat) (s : ℚ) :
    (afterSend cfg d t s).1.now = (afterMeasure cfg d t s).now := by
  rw [afterSend, sendPressure_now]

theorem afterSend_rising (cfg : Config) (d : Drum) (t : Nat) (s : ℚ) :
    (afterSend cfg d t s).1.rising = d.rising := by
  rw [afterSend, sendPressure_rising, afterMeasure_rising]

theorem afterSend_hit (cfg : Config) (d : Drum) (t : Nat) (s : ℚ) :
    (afterSend cfg d t s).1.hit = d.hit := by
  rw [afterSend, sendPressure_hit, afterMeasure_hit]

theorem afterSend_falling (cfg : Config) (d : Drum) (t : Nat) (s : ℚ) :
    (afterSend cfg d t s).1.falling = d.falling := by
  rw [afterSend, sendPressure_falling, afterMeasure_falling]

theorem afterSend_enabled (cfg : Config) (d : Drum) (t : Nat) (s : ℚ) :
    (afterSend cfg d t s).1.pressure.enabled = d.pressure.enabled := by
  rw [afterSend, sendPressure_enabled, afterMeasure_pressure]

theorem afterSend_sent (cfg : Config) (d : Drum) (t : Nat) (s : ℚ) :
    (afterSend cfg d t s).1.pressure.sent =
      (d.pressure.sent || nonzeroConfirmed (afterSend cfg d t s).2) := by
  rw [afterSend, sendPressure_sent, afterMeasure_pressure]

theorem afterSend_rawSent (cfg : Config) (d : Drum) (t : Nat) (s : ℚ) :
    (afterSend cfg d t s).1.pressure.rawSent =
      (d.pressure.rawSent || nonzeroRaw (afterSend cfg d t s).2) := by
  rw [afterSend, sendPressure_rawSent, afterMeasure_pressure]

/-- Flag dynamics of one tick: `_pressure.sent` is cleared by a
`Release` to `Idle` transition and otherwise records whether a non-zero
confirmed-pressure event has been emitted. -/
theorem loop_sent (cfg : Config) (d : Drum) (t : Nat) (s : ℚ) :
    (loop cfg d t s).1.pressure.sent =
      if d.now.state = State.Release ∧ (loop cfg d t s).1.now.state = State.Idle then false
      else (d.pressure.sent || nonzeroConfirmed (loop cfg d t s).2) := by
  by_cases hth : usecSince t d.now.usec < 500
  · rw [loop_throttle cfg d t s hth]
    rw [if_neg]
    · simp [nonzeroConfirmed]
    · rintro ⟨h1, h2⟩
      rw [h1] at h2
      exact State.noConfusion h2
  · rw [loop_eq cfg d t s hth]
    by_cases hrel : d.now.state = State.Release
    · by_cases hcl : 0 < (afterSend cfg d t s).1.now.fraction ∨
        usecSince t (afterSend cfg d t s).1.hit.releaseUsec < cfg.hitReleaseUsec
      · rw [machineStep_release_noclear cfg _ t ((afterSend_state cfg d t s).trans hrel) hcl]
        rw [if_neg]
        · rw [List.append_nil, afterSend_sent]
        · rintro ⟨h1, h2⟩
          rw [afterSend_state cfg d t s, hrel] at h2
          exact State.noConfusion h2
      · push_neg at hcl
        rw [machineStep_release_clear cfg _ t ((afterSend_state cfg d t s).trans hrel)
          (not_lt.mpr hcl.1) (not_lt.mpr hcl.2)]
        simp [hrel]
    · have hrel' : (afterSend cfg d t s).1.now.state ≠ State.Release := by
        rw [afterSend_state]; exact hrel
      have hms := machineStep_pressure_eq cfg (afterSend cfg d t s).1 t hrel'
      rw [hms.1, afterSend_sent]
      rw [if_neg (fun hh => hrel hh.1)]
      rw [nonzeroConfirmed_append, hms.2.2.2.2.2.2.2.1]
      rw [Bool.or_false]

/-- Flag dynamics of one tick for the raw-pressure flag. -/
theorem loop_rawSent (cfg : Config) (d : Drum) (t : Nat) (s : ℚ) :
    (loop cfg d t s).1.pressure.rawSent =
      if d.now.state = State.Release ∧ (loop cfg d t s).1.now.state = State.Idle then false
      else (d.pressure.rawSent || nonzeroRaw (loop cfg d t s).2) := by
  by_cases hth : usecSince t d.now.usec < 500
  · rw [loop_throttle cfg d t s hth]
    rw [if_neg]
    · simp [nonzeroRaw]
    · rintro ⟨h1, h2⟩
      rw [h1] at h2
      exact State.noConfusion h2
  · rw [loop_eq cfg d t s hth]
    by_cases hrel : d.now.state = State.Release
    · by_cases hcl : 0 < (afterSend cfg d t s).1.now.fraction ∨
        usecSince t (afterSend cfg d t s).1.hit.releaseUsec < cfg.hitReleaseUsec
      · rw [machineStep_release_noclear cfg _ t ((afterSend_state cfg d t s).trans hrel) hcl]
        rw [if_neg]
        · rw [List.append_nil, afterSend_rawSent]
        · rintro ⟨h1, h2⟩
          rw [afterSend_state cfg d t s, hrel] at h2
          exact State.noConfusion h2
      · push_neg at hcl
        rw [machineStep_release_clear cfg _ t ((afterSend_state cfg d t s).trans hrel)
          (not_lt.mpr hcl.1) (not_lt.mpr hcl.2)]
        simp [hrel]
    · have hrel' : (afterSend cfg d t s).1.now.state ≠ State.Release := by
        rw [afterSend_state]; exact hrel
      have hms := machineStep_pressure_eq cfg (afterSend cfg d t s).1 t hrel'
      rw [hms.2.1, afterSend_rawSent]
      rw [if_neg (fun hh => hrel hh.1)]
      rw [nonzeroRaw_append, hms.2.2.2.2.2.2.2.2]
      rw [Bool.or_false]

theorem nonzeroConfirmed_terminal (b1 b2 : Bool) :
    nonzeroConfirmed ((if b1 = true then [Event.pressure 0 0] else []) ++
      (if b2 = true then [Event.pressureRaw 0 0] else [])) = false := by
  cases b1 <;> cases b2 <;> decide

theorem nonzeroRaw_terminal (b1 b2 : Bool) :
    nonzeroRaw ((if b1 = true then [Event.pressure 0 0] else []) ++
      (if b2 = true then [Event.pressureRaw 0 0] else [])) = false := by
  cases b1 <;> cases b2 <;> decide

theorem count_pz_terminal (b1 b2 : Bool) :
    List.count (Event.pressure 0 0) ((if b1 = true then [Event.pressure 0 0] else []) ++
      (if b2 = true then [Event.pressureRaw 0 0] else [])) = if b1 = true then 1 else 0 := by
  cases b1 <;> cases b2 <;> decide

theorem count_rz_terminal (b1 b2 : Bool) :
    List.count (Event.pressureRaw 0 0) ((if b1 = true then [Event.pressure 0 0] else []) ++
      (if b2 = true then [Event.pressureRaw 0 0] else [])) = if b2 = true then 1 else 0 := by
  cases b1 <;> cases b2 <;> decide

theorem afterSend_count_pz (cfg : Config) (d : Drum) (t : Nat) (s : ℚ) :
    List.count (Event.pressure 0 0) (afterSend cfg d t s).2 = 0 := by
  rw [afterSend]
  exact sendPressure_count_pz cfg _ t

theorem afterSend_count_rz (cfg : Config) (d : Drum) (t : Nat) (s : ℚ) :
    List.count (Event.pressureRaw 0 0) (afterSend cfg d t s).2 = 0 := by
  rw [afterSend]
  exact sendPressure_count_rz cfg _ t

/-- Terminal-zero emission of one tick, confirmed-pressure kind: a
zero-valued confirmed-pressure event is emitted exactly once when the tick
completes a cycle with the sent flag (as updated by this tick) set, and
never otherwise. -/
theorem loop_count_pz (cfg : Config) (d : Drum) (t : Nat) (s : ℚ) :
    List.count (Event.pressure 0 0) (loop cfg d t s).2 =
      if d.now.state = State.Release ∧ (loop cfg d t s).1.now.state = State.Idle ∧
          (d.pressure.sent || nonzeroConfirmed (loop cfg d t s).2) = true
      then 1 else 0 := by
  by_cases hth : usecSince t d.now.usec < 500
  · rw [loop_throttle cfg d t s hth]
    rw [if_neg]
    · simp
    · rintro ⟨h1, h2, h3⟩
      rw [h1] at h2
      exact State.noConfusion h2
  · rw [loop_eq cfg d t s hth]
    by_cases hrel : d.now.state = State.Release
    · by_cases hcl : 0 < (afterSend cfg d t s).1.now.fraction ∨
        usecSince t (afterSend cfg d t s).1.hit.releaseUsec < cfg.hitReleaseUsec
      · rw [machineStep_release_noclear cfg _ t ((afterSend_state cfg d t s).trans hrel) hcl]
        rw [if_neg]
        · rw [List.append_nil, afterSend_count_pz]
        · rintro ⟨h1, h2, h3⟩
          rw [afterSend_state cfg d t s, hrel] at h2
          exact State.noConfusion h2
      · push_neg at hcl
        rw [machineStep_release_clear cfg _ t ((afterSend_state cfg d t s).trans hrel)
          (not_lt.mpr hcl.1) (not_lt.mpr hcl.2)]
        rw [List.count_append, afterSend_count_pz, count_pz_terminal]
        rw [nonzeroConfirmed_append, nonzeroConfirmed_terminal, Bool.or_false,
          ← afterSend_sent]
        rcases hb : (afterSend cfg d t s).1.pressure.sent with _ | _ <;> simp [hrel]
    · have hrel₁ : (afterSend cfg d t s).1.now.state ≠ State.Release := by
        rw [afterSend_state]; exact hrel
      have hms := machineStep_pressure_eq cfg (afterSend cfg d t s).1 t hrel₁
      rw [if_neg (fun hh => hrel hh.1)]
      rw [List.count_append, hms.2.2.2.2.2.1, afterSend_count_pz]

/-- Terminal-zero emission of one tick, raw-pressure kind. -/
theorem loop_count_rz (cfg : Config) (d : Drum) (t : Nat) (s : ℚ) :
    List.count (Event.pressureRaw 0 0) (loop cfg d t s).2 =
      if d.now.state = State.Release ∧ (loop cfg d t s).1.now.state = State.Idle ∧
          (d.pressure.rawSent || nonzeroRaw (loop cfg d t s).2) = true
      then 1 else 0 := by
  by_cases hth : usecSince t d.now.usec < 500
  · rw [loop_throttle cfg d t s hth]
    rw [if_neg]
    · simp
    · rintro ⟨h1, h2, h3⟩
      rw [h1] at h2
      exact State.noConfusion h2
  · rw [loop_eq cfg d t s hth]
    by_cases hrel : d.now.state = State.Release
    · by_cases hcl : 0 < (afterSend cfg d t s).1.now.fraction ∨
        usecSince t (afterSend cfg d t s).1.hit.releaseUsec < cfg.hitReleaseUsec
      · rw [machineStep_release_noclear cfg _ t ((afterSend_state cfg d t s).trans hrel) hcl]
        rw [if_neg]
        · rw [List.append_nil, afterSend_count_rz]
        · rintro ⟨h1, h2, h3⟩
          rw [afterSend_state cfg d t s, hrel] at h2
          exact State.noConfusion h2
      · push_neg at hcl
        rw [machineStep_release_clear cfg _ t ((afterSend_state cfg d t s).trans hrel)
          (not_lt.mpr hcl.1) (not_lt.mpr hcl.2)]
        rw [List.count_append, afterSend_count_rz, count_rz_terminal]
        rw [nonzeroRaw_append, nonzeroRaw_terminal, Bool.or_false,
          ← afterSend_rawSent]
        rcases hb : (afterSend cfg d t s).1.pressure.rawSent with _ | _ <;> simp [hrel]
    · have hrel₁ : (afterSend cfg d t s).1.now.state ≠ State.Release := by
        rw [afterSend_state]; exact hrel
      have hms := machineStep_pressure_eq cfg (afterSend cfg d t s).1 t hrel₁
      rw [if_neg (fun hh => hrel hh.1)]
      rw [List.count_append, hms.2.2.2.2.2.2.1, afterSend_count_rz]

/-- Hit events come only from ticks that start in the `Hit` state. -/
theorem loop_hit_mem (cfg : Config) (d : Drum) (t : Nat) (s : ℚ) :
    ∀ v, Event.hit v ∈ (loop cfg d t s).2 → d.now.state = State.Hit := by
  intro v hv
  by_cases hth : usecSince t d.now.usec < 500
  · rw [loop_throttle cfg d t s hth] at hv
    simp at hv
  · rw [loop_eq cfg d t s hth] at hv
    rcases List.mem_append.mp hv with hv | hv
    · rcases sendPressure_events cfg _ t _ hv with ⟨h | h, hst⟩ <;> exact Event.noConfusion h
    · have := machineStep_hit_only cfg (afterSend cfg d t s).1 t v hv
      rw [afterSend_state] at this
      exact this

/-- A non-throttled tick in the `Hit` state emits the pressure events of
`sendPressure` followed by exactly one hit event carrying `hitVelocity` of
the recorded peak, and moves to `HitHold`. -/
theorem loop_hit_eq (cfg : Config) (d : Drum) (t : Nat) (s : ℚ)
    (hstate : d.now.state = State.Hit) (hth : ¬usecSince t d.now.usec < 500) :
    (loop cfg d t s).2 =
      (afterSend cfg d t s).2 ++ [Event.hit (hitVelocity cfg d.rising.pressure)] ∧
    (loop cfg d t s).1.now.state = State.HitHold := by
  have hms := machineStep_hit_eq cfg (afterSend cfg d t s).1 t
    ((afterSend_state cfg d t s).trans hstate)
  rw [afterSend_rising] at hms
  rw [loop_eq cfg d t s hth, hms]
  exact ⟨rfl, rfl⟩

/-- A non-throttled tick in the `HitRelease` state emits the pressure
events of `sendPressure` followed by exactly one release event carrying
`releaseVelocity` of the fall duration, and moves to `Release`. -/
theorem loop_hitrelease_eq (cfg : Config) (d : Drum) (t : Nat) (s : ℚ)
    (hstate : d.now.state = State.HitRelease) (hth : ¬usecSince t d.now.usec < 500) :
    (loop cfg d t s).2 =
      (afterSend cfg d t s).2 ++ [Event.release (releaseVelocity cfg t d.falling.usec)] ∧
    (loop cfg d t s).1.now.state = State.Release := by
  have hms := machineStep_hitrelease_eq cfg (afterSend cfg d t s).1 t
    ((afterSend_state cfg d t s).trans hstate)
  rw [afterSend_falling] at hms
  rw [loop_eq cfg d t s hth, hms]
  exact ⟨rfl, rfl⟩

/-- A tick that moves the machine from `Release` to `Idle` zero-fills the
`now`, `pressure`, `rising` and `hit` groups, and leaves `falling` and the
filter history untouched (beyond the tick's own measure/send updates). -/
theorem loop_clear_eq (cfg : Config) (d : Drum) (t : Nat) (s : ℚ)
    (hrel : d.now.state = State.Release)
    (hidle : (loop cfg d t s).1.now.state = State.Idle) :
    (loop cfg d t s).1.now = {} ∧ (loop cfg d t s).1.pressure = {} ∧
    (loop cfg d t s).1.rising = {} ∧ (loop cfg d t s).1.hit = {} ∧
    (loop cfg d t s).1.falling = d.falling ∧
    (loop cfg d t s).1.history = (afterSend cfg d t s).1.history := by
  by_cases hth : usecSince t d.now.usec < 500
  · rw [loop_throttle cfg d t s hth] at hidle
    rw [hrel] at hidle
    exact absurd hidle (by intro h; exact State.noConfusion h)
  · rw [loop_eq cfg d t s hth] at hidle ⊢
    by_cases hcl : 0 < (afterSend cfg d t s).1.now.fraction ∨
        usecSince t (afterSend cfg d t s).1.hit.releaseUsec < cfg.hitReleaseUsec
    · rw [machineStep_release_noclear cfg _ t ((afterSend_state cfg d t s).trans hrel) hcl]
        at hidle
      rw [afterSend_state cfg d t s, hrel] at hidle
      exact absurd hidle (by intro h; exact State.noConfusion h)
    · push_neg at hcl
      rw [machineStep_release_clear cfg _ t ((afterSend_state cfg d t s).trans hrel)
        (not_lt.mpr hcl.1) (not_lt.mpr hcl.2)]
      exact ⟨rfl, rfl, rfl, rfl, afterSend_falling cfg d t s, rfl⟩

/-! ### Trace-level lemmas -/

theorem clearsB_iff (r : TickRec) :
    clearsB r = true ↔ (r.pre.now.state = State.Release ∧ r.post.now.state = State.Idle) := by
  simp [clearsB]

/-- Every record of a trace is generated by one tick. -/
theorem trace_shape (cfg : Config) :
    ∀ (ins : List (Nat × ℚ)) (d : Drum) (n : Nat) (rec : TickRec),
      (trace cfg d ins).get? n = some rec →
      ∃ t s, rec.post = (loop cfg rec.pre t s).1 ∧ rec.evs = (loop cfg rec.pre t s).2 := by
  intro ins
  induction ins with
  | nil => intro d n rec h; simp [trace] at h
  | cons p rest ih =>
    intro d n rec h
    rcases p with ⟨t, s⟩
    cases n with
    | zero =>
      simp [trace] at h
      exact ⟨t, s, by rw [← h], by rw [← h]⟩
    | succ m => exact ih (loop cfg d t s).1 m rec h

/-- The per-tick flag equation of `loop_sent`, phrased with `clearsB`. -/
theorem loop_sent_clearsB (cfg : Config) (d : Drum) (t : Nat) (s : ℚ) :
    (loop cfg d t s).1.pressure.sent =
      if clearsB ⟨d, (loop cfg d t s).1, (loop cfg d t s).2⟩ then false
      else (d.pressure.sent || nonzeroConfirmed (loop cfg d t s).2) := by
  rw [loop_sent]
  by_cases hc : d.now.state = State.Release ∧ (loop cfg d t s).1.now.state = State.Idle
  · rw [if_pos hc, if_pos (by simpa [clearsB] using hc)]
  · rw [if_neg hc, if_neg (by simpa [clearsB] using hc)]

theorem loop_rawSent_clearsB (cfg : Config) (d : Drum) (t : Nat) (s : ℚ) :
    (loop cfg d t s).1.pressure.rawSent =
      if clearsB ⟨d, (loop cfg d t s).1, (loop cfg d t s).2⟩ then false
      else (d.pressure.rawSent || nonzeroRaw (loop cfg d t s).2) := by
  rw [loop_rawSent]
  by_cases hc : d.now.state = State.Release ∧ (loop cfg d t s).1.now.state = State.Idle
  · rw [if_pos hc, if_pos (by simpa [clearsB] using hc)]
  · rw [if_neg hc, if_neg (by simpa [clearsB] using hc)]

/-- Along a trace, the `_pressure.sent` flag at the start of tick `n`
equals the owed-terminal-zero fold over the ticks before `n`. -/
theorem trace_sent (cfg : Config) :
    ∀ (ins : List (Nat × ℚ)) (d : Drum) (n : Nat) (rec : TickRec),
      (trace cfg d ins).get? n = some rec →
      rec.pre.pressure.sent =
        owedAfter nonzeroConfirmed d.pressure.sent ((trace cfg d ins).take n) := by
  intro ins
  induction ins with
  | nil => intro d n rec h; simp [trace] at h
  | cons p rest ih =>
    intro d n rec h
    rcases p with ⟨t, s⟩
    cases n with
    | zero =>
      simp [trace] at h
      rw [← h]
      rfl
    | succ m =>
      have hih := ih (loop cfg d t s).1 m rec h
      rw [hih]
      show _ = owedAfter nonzeroConfirmed d.pressure.sent
        ((⟨d, (loop cfg d t s).1, (loop cfg d t s).2⟩ : TickRec) ::
          (trace cfg (loop cfg d t s).1 rest).take m)
      rw [owedAfter, ← loop_sent_clearsB]

theorem trace_rawSent (cfg : Config) :
    ∀ (ins : List (Nat × ℚ)) (d : Drum) (n : Nat) (rec : TickRec),
      (trace cfg d ins).get? n = some rec →
      rec.pre.pressure.rawSent =
        owedAfter nonzeroRaw d.pressure.rawSent ((trace cfg d ins).take n) := by
  intro ins
  induction ins with
  | nil => intro d n rec h; simp [trace] at h
  | cons p rest ih =>
    intro d n rec h
    rcases p with ⟨t, s⟩
    cases n with
    | zero =>
      simp [trace] at h
      rw [← h]
      rfl
    | succ m =>
      have hih := ih (loop cfg d t s).1 m rec h
      rw [hih]
      show _ = owedAfter nonzeroRaw d.pressure.rawSent
        ((⟨d, (loop cfg d t s).1, (loop cfg d t s).2⟩ : TickRec) ::
          (trace cfg (loop cfg d t s).1 rest).take m)
      rw [owedAfter, ← loop_rawSent_clearsB]

/-- If the confirmed-pressure gate is closed, `sendPressure` emits no
confirmed-pressure event. -/
theorem sendPressure_no_confirmed (cfg : Config) (d : Drum) (t : Nat)
    (h : d.pressure.enabled = false) :
    ∀ f st, Event.pressure f st ∉ (sendPressure cfg d t).2 := by
  intro f st hmem
  simp only [sendPressure] at hmem
  split at hmem
  · simp at hmem
  split at hmem
  · simp at hmem
  split at hmem
  · simp at hmem
  split at hmem
  · simp_all
  · simp at hmem

/-- A tick of the machine in `Rising` with a non-zero step records the
running maximum of the conditioned fraction. -/
theorem machineStep_rising_peak (cfg : Config) (d : Drum) (t : Nat)
    (h : d.now.state = State.Rising) (hz : d.now.step ≠ 0) :
    (machineStep cfg d t).1.rising.pressure = max d.rising.pressure d.now.fraction := by
  simp only [machineStep, h]
  rw [if_neg hz]
  rcases lt_or_le d.rising.pressure d.now.fraction with hc | hc
  · rw [if_pos hc]
    repeat' split
    all_goals simp [max_eq_right hc.le]
  · rw [if_neg (not_lt.mpr hc)]
    repeat' split
    all_goals simp [max_eq_left hc]

/-- A tick of the machine in `Rising` with the step back at zero aborts
straight to `Release` and emits nothing. -/
theorem machineStep_rising_zero (cfg : Config) (d : Drum) (t : Nat)
    (h : d.now.state = State.Rising) (hz : d.now.step = 0) :
    machineStep cfg d t = ({ d with now := { d.now with state := State.Release } }, []) := by
  simp only [machineStep, h]
  rw [if_pos hz]

/-! ### Invariant preservation -/

theorem machineStep_hitPeak (cfg : Config) (d : Drum) (t : Nat)
    (h : d.now.state = State.Hit → cfg.hitMin < d.rising.pressure) :
    (machineStep cfg d t).1.now.state = State.Hit →
      cfg.hitMin < (machineStep cfg d t).1.rising.pressure := by
  rcases hs : d.now.state
  all_goals
    simp only [machineStep, hs]
    repeat' split
    all_goals intro hh
    all_goals simp_all [not_le]

theorem loop_hitPeak (cfg : Config) (d : Drum) (t : Nat) (s : ℚ)
    (h : HitPeakInv cfg d) : HitPeakInv cfg (loop cfg d t s).1 := by
  by_cases hth : usecSince t d.now.usec < 500
  · rw [loop_throttle cfg d t s hth]
    exact h
  · rw [loop_eq cfg d t s hth]
    intro hh
    refine machineStep_hitPeak cfg _ t ?_ hh
    rw [afterSend_state, afterSend_rising]
    exact h

theorem run_hitPeak (cfg : Config) :
    ∀ (ins : List (Nat × ℚ)) (d : Drum),
      HitPeakInv cfg d → HitPeakInv cfg (run cfg d ins).1 := by
  intro ins
  induction ins with
  | nil => intro d h; exact h
  | cons p rest ih =>
    intro d h
    rcases p with ⟨t, s⟩
    exact ih (loop cfg d t s).1 (loop_hitPeak cfg d t s h)

theorem reachable_hitPeak (cfg : Config) (d : Drum) (h : Reachable cfg d) :
    HitPeakInv cfg d := by
  obtain ⟨ins, hins⟩ := h
  rw [← hins]
  refine run_hitPeak cfg ins init ?_
  intro hh
  exact absurd hh (by intro hc; exact State.noConfusion hc)

theorem machineStep_enabled (cfg : Config) (d : Drum) (t : Nat)
    (h : d.now.state = State.Idle ∨ d.now.state = State.Rising ∨ d.now.state = State.Hit →
      d.pressure.enabled = false) :
    (machineStep cfg d t).1.now.state = State.Idle ∨
      (machineStep cfg d t).1.now.state = State.Rising ∨
      (machineStep cfg d t).1.now.state = State.Hit →
      (machineStep cfg d t).1.pressure.enabled = false := by
  rcases hs : d.now.state
  all_goals
    simp only [machineStep, hs]
    repeat' split
    all_goals intro hh
    all_goals simp_all

theorem loop_enabled (cfg : Config) (d : Drum) (t : Nat) (s : ℚ)
    (h : EnabledInv d) : EnabledInv (loop cfg d t s).1 := by
  by_cases hth : usecSince t d.now.usec < 500
  · rw [loop_throttle cfg d t s hth]
    exact h
  · rw [loop_eq cfg d t s hth]
    intro hh
    refine machineStep_enabled cfg _ t ?_ hh
    rw [afterSend_state, afterSend_enabled]
    exact h

theorem run_enabled (cfg : Config) :
    ∀ (ins : List (Nat × ℚ)) (d : Drum),
      EnabledInv d → EnabledInv (run cfg d ins).1 := by
  intro ins
  induction ins with
  | nil => intro d h; exact h
  | cons p rest ih =>
    intro d h
    rcases p with ⟨t, s⟩
    exact ih (loop cfg d t s).1 (loop_enabled cfg d t s h)

theorem reachable_enabled (cfg : Config) (d : Drum) (h : Reachable cfg d) :
    EnabledInv d := by
  obtain ⟨ins, hins⟩ := h
  rw [← hins]
  exact run_enabled cfg ins init (fun _ => rfl)

/-! ### Claim theorems -/

/-- A non-throttled tick in the `Hit` state emits exactly one hit event,
whose velocity is the rounded-up scaled correction of the clamped peak. -/
theorem loop_hit_val (cfg : Config) (d : Drum) (t : Nat) (s : ℚ)
    (hstate : d.now.state = State.Hit) (hth₁ : ¬usecSince t d.now.usec < 500) :
    Event.hit ⌈cfg.powf ((min d.rising.pressure cfg.hitMax - cfg.hitMin) /
        (cfg.hitMax - cfg.hitMin)) cfg.hitExponent * ((cfg.nSteps : ℚ) - 1)⌉ ∈
      (loop cfg d t s).2 ∧
    ∀ v, Event.hit v ∈ (loop cfg d t s).2 →
      v = ⌈cfg.powf ((min d.rising.pressure cfg.hitMax - cfg.hitMin) /
        (cfg.hitMax - cfg.hitMin)) cfg.hitExponent * ((cfg.nSteps : ℚ) - 1)⌉ := by
  have hle := loop_hit_eq cfg d t s hstate hth₁
  have hv : hitVelocity cfg d.rising.pressure =
      ⌈cfg.powf ((min d.rising.pressure cfg.hitMax - cfg.hitMin) /
        (cfg.hitMax - cfg.hitMin)) cfg.hitExponent * ((cfg.nSteps : ℚ) - 1)⌉ := by
    rw [hitVelocity]
    rcases le_or_lt d.rising.pressure cfg.hitMax with hc | hc
    · rw [min_eq_left hc, if_neg (not_lt.mpr hc)]
    · rw [min_eq_right hc.le, if_pos hc]
  constructor
  · rw [hle.1, ← hv]
    exact List.mem_append_right _ (List.mem_singleton_self _)
  · intro v hvmem
    rw [hle.1] at hvmem
    rcases List.mem_append.mp hvmem with hm | hm
    · rcases sendPressure_events cfg _ t _ hm with ⟨h1 | h1, hst⟩ <;> exact Event.noConfusion h1
    · rw [List.mem_singleton] at hm
      injection hm with h1
      rw [h1]
      exact hv

/-- C1: Hit velocity postcondition.  For any configuration with
`hit.min < hit.max` and `nSteps ≥ 1`, whenever a (non-throttled) tick
takes the `Hit` to `HitHold` transition, the hit event it emits — and it
emits exactly one — carries velocity
`ceil(powf f hit.exponent * (nSteps - 1))` with
`f = (min peak hit.max - hit.min) / (hit.max - hit.min)`, where `peak` is
the `_rising.pressure` running maximum recorded during `Rising`. -/
theorem c1_hit_velocity (cfg : Config) (d : Drum) (t : Nat) (s : ℚ)
    (hmm : cfg.hitMin < cfg.hitMax) (hn : 1 ≤ cfg.nSteps)
    (hstate : d.now.state = State.Hit) (hth : 500 ≤ usecSince t d.now.usec) :
    Event.hit ⌈cfg.powf ((min d.rising.pressure cfg.hitMax - cfg.hitMin) /
        (cfg.hitMax - cfg.hitMin)) cfg.hitExponent * ((cfg.nSteps : ℚ) - 1)⌉ ∈
      (loop cfg d t s).2 ∧
    (∀ v, Event.hit v ∈ (loop cfg d t s).2 →
      v = ⌈cfg.powf ((min d.rising.pressure cfg.hitMax - cfg.hitMin) /
        (cfg.hitMax - cfg.hitMin)) cfg.hitExponent * ((cfg.nSteps : ℚ) - 1)⌉) ∧
    (∀ (d₂ : Drum) (t₂ : Nat) (s₂ : ℚ), d₂.now.state = State.Rising →
      ¬usecSince t₂ d₂.now.usec < 500 →
      (afterMeasure cfg d₂ t₂ s₂).now.step ≠ 0 →
      (loop cfg d₂ t₂ s₂).1.rising.pressure =
        max d₂.rising.pressure (afterMeasure cfg d₂ t₂ s₂).now.fraction) := by
  have hth₁ : ¬usecSince t d.now.usec < 500 := not_lt.mpr hth
  refine ⟨(loop_hit_val cfg d t s hstate hth₁).1, (loop_hit_val cfg d t s hstate hth₁).2, ?_⟩
  · intro d₂ t₂ s₂ hst2 hth2 hz2
    rw [loop_eq cfg d₂ t₂ s₂ hth2]
    have hz2a : (afterSend cfg d₂ t₂ s₂).1.now.step ≠ 0 := by
      rw [afterSend_now]
      exact hz2
    rw [machineStep_rising_peak cfg _ t₂ ((afterSend_state cfg d₂ t₂ s₂).trans hst2) hz2a]
    rw [afterSend_rising, afterSend_now]

/-- Witness for C1, the spec example: `nSteps = 128`,
`hit.min = 0.1`, `hit.max = 0.9`, exponent one, recorded peak `0.5`; the
emitted hit velocity is `ceil(63.5) = 64`. -/
theorem c1_hit_velocity_witness :
    Event.hit 64 ∈ (loop cfgA dHitA 27000 (1/2)).2 := by
  have h := c1_hit_velocity cfgA dHitA 27000 (1/2)
    (by apply of_decide_eq_true; with_unfolding_all rfl)
    (by apply of_decide_eq_true; with_unfolding_all rfl)
    (by with_unfolding_all rfl)
    (by apply of_decide_eq_true; with_unfolding_all rfl)
  have hval : (⌈cfgA.powf ((min dHitA.rising.pressure cfgA.hitMax - cfgA.hitMin) /
      (cfgA.hitMax - cfgA.hitMin)) cfgA.hitExponent * ((cfgA.nSteps : ℚ) - 1)⌉ : ℤ) = 64 := by
    with_unfolding_all rfl
  rw [hval] at h
  exact h.1

/-- C10: the hit velocity is never zero.  With `hit.min < hit.max`,
`nSteps ≥ 2` and a positive hit exponent (`PowPos`), every hit event
emitted from a reachable state carries velocity at least one: the `Hit`
state is entered only with a recorded peak strictly above `hit.min`, so
the normalized exponent-corrected fraction is positive and the rounded-up
velocity is at least one. -/
theorem c10_hit_velocity_pos (cfg : Config) (d : Drum) (t : Nat) (s : ℚ)
    (hmm : cfg.hitMin < cfg.hitMax) (hn : 2 ≤ cfg.nSteps) (hpow : PowPos cfg)
    (hr : Reachable cfg d) :
    ∀ v, Event.hit v ∈ (loop cfg d t s).2 → 1 ≤ v := by
  intro v hv
  by_cases hth : usecSince t d.now.usec < 500
  · rw [loop_throttle cfg d t s hth] at hv
    simp at hv
  · have hstate := loop_hit_mem cfg d t s v hv
    have hpeak := reachable_hitPeak cfg d hr hstate
    have hn1 : 1 ≤ cfg.nSteps := le_trans (by omega) hn
    have heq := (loop_hit_val cfg d t s hstate hth).2 v hv
    rw [heq]
    have hden : (0:ℚ) < cfg.hitMax - cfg.hitMin := sub_pos.mpr hmm
    have hminpos : cfg.hitMin < min d.rising.pressure cfg.hitMax := lt_min hpeak hmm
    have hfpos : (0:ℚ) <
        (min d.rising.pressure cfg.hitMax - cfg.hitMin) / (cfg.hitMax - cfg.hitMin) :=
      div_pos (sub_pos.mpr hminpos) hden
    have hfle : (min d.rising.pressure cfg.hitMax - cfg.hitMin) /
        (cfg.hitMax - cfg.hitMin) ≤ 1 := by
      rw [div_le_one hden]
      have := min_le_right d.rising.pressure cfg.hitMax
      linarith
    have hp := hpow _ hfpos hfle
    have hcast : (2:ℚ) ≤ (cfg.nSteps : ℚ) := by exact_mod_cast hn
    have hmul : (0:ℚ) <
        cfg.powf ((min d.rising.pressure cfg.hitMax - cfg.hitMin) /
          (cfg.hitMax - cfg.hitMin)) cfg.hitExponent * ((cfg.nSteps : ℚ) - 1) :=
      mul_pos hp (by linarith)
    have := Int.ceil_pos.mpr hmul
    omega

/-- Witness for C10: the concrete hit of `cfgA` from the reachable `Hit`
state carries velocity `64 ≥ 1`. -/
theorem c10_hit_velocity_pos_witness :
    Event.hit 64 ∈ (loop cfgA dHitA 27000 (1/2)).2 ∧ (1:ℤ) ≤ 64 := by
  refine ⟨by apply of_decide_eq_true; with_unfolding_all rfl, ?_⟩
  refine c10_hit_velocity_pos cfgA dHitA 27000 (1/2)
    (by apply of_decide_eq_true; with_unfolding_all rfl)
    (by apply of_decide_eq_true; with_unfolding_all rfl)
    (fun x hx _ => hx) ⟨insA2, rfl⟩ 64
    (by apply of_decide_eq_true; with_unfolding_all rfl)

/-- C5: Hit-before-confirmed-pressure ordering.  From any reachable
state: a tick that emits a hit event emits no confirmed-pressure event,
and no tick starting in `Idle`, `Rising` or `Hit` (the phase of a cycle
up to and including the hit emission) emits a confirmed-pressure event —
so in a cycle with a hit, every confirmed-pressure event comes after the
hit.  Raw-pressure events carry no such constraint: in the concrete
`cfgA` run, a raw-pressure event precedes the hit event. -/
theorem c5_ordering :
    (∀ (cfg : Config) (d : Drum) (t : Nat) (s : ℚ), Reachable cfg d →
      ((∃ v, Event.hit v ∈ (loop cfg d t s).2) →
        ∀ f st, Event.pressure f st ∉ (loop cfg d t s).2) ∧
      (d.now.state = State.Idle ∨ d.now.state = State.Rising ∨ d.now.state = State.Hit →
        ∀ f st, Event.pressure f st ∉ (loop cfg d t s).2)) ∧
    (run cfgA init (insA5.take 3)).2 = [Event.pressureRaw (1/2) 64, Event.hit 64] := by
  constructor
  · intro cfg d t s hr
    have hmain : d.now.state = State.Idle ∨ d.now.state = State.Rising ∨
        d.now.state = State.Hit → ∀ f st, Event.pressure f st ∉ (loop cfg d t s).2 := by
      intro hset f st hmem
      by_cases hth : usecSince t d.now.usec < 500
      · rw [loop_throttle cfg d t s hth] at hmem
        simp at hmem
      · rw [loop_eq cfg d t s hth] at hmem
        rcases List.mem_append.mp hmem with hm | hm
        · have hen : (afterMeasure cfg d t s).pressure.enabled = false := by
            rw [afterMeasure_pressure]
            exact reachable_enabled cfg d hr hset
          exact sendPressure_no_confirmed cfg _ t hen f st hm
        · have hrel := (machineStep_pressure_mem cfg (afterSend cfg d t s).1 t f st hm).2.2
          rw [afterSend_state] at hrel
          rcases hset with hc | hc | hc <;> rw [hc] at hrel <;> exact State.noConfusion hrel
    refine ⟨?_, hmain⟩
    rintro ⟨v, hv⟩
    exact hmain (Or.inr (Or.inr (loop_hit_mem cfg d t s v hv)))
  · with_unfolding_all rfl

/-- Witness for C5: in the tick of `cfgA` that emits the hit, no
confirmed-pressure event is emitted. -/
theorem c5_ordering_witness :
    Event.pressure (1/2) 64 ∉ (loop cfgA dHitA 27000 (1/2)).2 := by
  refine (c5_ordering.1 cfgA dHitA 27000 (1/2) ⟨insA2, rfl⟩).2 ?_ (1/2) 64
  exact Or.inr (Or.inr (by with_unfolding_all rfl))

/-- C4: No hit on a fast fall.  A (non-throttled) tick in `Rising` whose
measured step is back at zero — in particular before `hit.risingUsec` has
elapsed since the rise began — moves the machine directly to `Release`
and emits no hit event; moreover hit events are only ever emitted by
ticks that start in the `Hit` state, which this candidate rise never
enters. -/
theorem c4_fast_fall (cfg : Config) (d : Drum) (t : Nat) (s : ℚ)
    (hstate : d.now.state = State.Rising)
    (hth : 500 ≤ usecSince t d.now.usec)
    (hstep : (afterMeasure cfg d t s).now.step = 0)
    (hfast : usecSince t d.rising.usec < cfg.hitRisingUsec) :
    (loop cfg d t s).1.now.state = State.Release ∧
    (∀ v, Event.hit v ∉ (loop cfg d t s).2) ∧
    (∀ (d₂ : Drum) (t₂ : Nat) (s₂ : ℚ) (v : ℤ),
      Event.hit v ∈ (loop cfg d₂ t₂ s₂).2 → d₂.now.state = State.Hit) := by
  have hth₁ : ¬usecSince t d.now.usec < 500 := not_lt.mpr hth
  have hstep₂ : (afterSend cfg d t s).1.now.step = 0 := by
    rw [afterSend_now]
    exact hstep
  have hms := machineStep_rising_zero cfg (afterSend cfg d t s).1 t
    ((afterSend_state cfg d t s).trans hstate) hstep₂
  refine ⟨?_, ?_, ?_⟩
  · rw [loop_eq cfg d t s hth₁, hms]
  · intro v hv
    rw [loop_eq cfg d t s hth₁, hms, List.append_nil] at hv
    rcases sendPressure_events cfg _ t _ hv with ⟨h1 | h1, hst⟩ <;> exact Event.noConfusion h1
  · intro d₂ t₂ s₂ v hv
    exact loop_hit_mem cfg d₂ t₂ s₂ v hv

/-- C2 (amended): Release velocity.  For any configuration with
`release.minUsec < release.maxUsec`, a (non-throttled) tick taking the
`HitRelease` to `Release` transition emits exactly one release event
carrying `releaseVelocity`: the elapsed duration since the fall began,
clamped into `[release.minUsec, release.maxUsec]`, normalized over that
range, mapped to `127 - fraction*126` and truncated toward zero when
stored in the 8-bit velocity (the truncation is the amendment: the claim
asserted exact equality with `127 - 126*fraction`, which fails whenever
`126*fraction` is not an integer). -/
theorem c2_release_velocity (cfg : Config) (d : Drum) (t : Nat) (s : ℚ)
    (hmm : cfg.releaseMinUsec < cfg.releaseMaxUsec)
    (hstate : d.now.state = State.HitRelease)
    (hth : 500 ≤ usecSince t d.now.usec) :
    Event.release (releaseVelocity cfg t d.falling.usec) ∈ (loop cfg d t s).2 ∧
    (∀ v, Event.release v ∈ (loop cfg d t s).2 →
      v = releaseVelocity cfg t d.falling.usec) ∧
    (loop cfg d t s).1.now.state = State.Release := by
  have hth₁ : ¬usecSince t d.now.usec < 500 := not_lt.mpr hth
  have hle := loop_hitrelease_eq cfg d t s hstate hth₁
  refine ⟨?_, ?_, hle.2⟩
  · rw [hle.1]
    exact List.mem_append_right _ (List.mem_singleton_self _)
  · intro v hvmem
    rw [hle.1] at hvmem
    rcases List.mem_append.mp hvmem with hm | hm
    · rcases sendPressure_events cfg _ t _ hm with ⟨h1 | h1, hst⟩ <;> exact Event.noConfusion h1
    · rw [List.mem_singleton] at hm
      injection hm with h1

/-- Witness for C2 (amended), the two spec examples on
`release.minUsec = 5000`, `release.maxUsec = 50000` from the reachable
`HitRelease` state of `cfgA` (fall began at 27200 μs): a fall of 27500 μs
yields velocity 64, and a fall of 3000 μs clamps to 5000 μs and yields
velocity 127. -/
theorem c2_release_velocity_witness :
    Event.release 64 ∈ (loop cfgA dHRA 54700 0).2 ∧
    Event.release 127 ∈ (loop cfgA dHRA 30200 0).2 := by
  have h1 := c2_release_velocity cfgA dHRA 54700 0
    (by apply of_decide_eq_true; with_unfolding_all rfl)
    (by with_unfolding_all rfl)
    (by apply of_decide_eq_true; with_unfolding_all rfl)
  have h2 := c2_release_velocity cfgA dHRA 30200 0
    (by apply of_decide_eq_true; with_unfolding_all rfl)
    (by with_unfolding_all rfl)
    (by apply of_decide_eq_true; with_unfolding_all rfl)
  have e1 : releaseVelocity cfgA 54700 dHRA.falling.usec = 64 := by with_unfolding_all rfl
  have e2 : releaseVelocity cfgA 30200 dHRA.falling.usec = 127 := by with_unfolding_all rfl
  rw [e1] at h1
  rw [e2] at h2
  exact ⟨h1.1, h2.1⟩

/-- Counterexample to C2 as stated: in the concrete `cfgA` run the fall
begins at 27200 μs and the `HitRelease` to `Release` transition happens
at 32650 μs (duration 5450 μs, inside `[5000, 50000]`, so clamping is the
identity); the emitted release velocity is 125, but the claimed value
`127 - 126*(5450-5000)/(50000-5000) = 125.74` is not an integer, so the
equality the claim asserts fails. -/
theorem c2_release_velocity_counterexample :
    (run cfgA init insA5).2 =
      [Event.pressureRaw (1/2) 64, Event.hit 64, Event.release 125] ∧
    cfgA.releaseMinUsec = 5000 ∧ cfgA.releaseMaxUsec = 50000 ∧
    (run cfgA init insA4).1.now.state = State.HitRelease ∧
    (run cfgA init insA4).1.falling.usec = 27200 ∧
    ((125 : ℚ) ≠ 127 - 126 * (((32650 - 27200) - 5000) / (50000 - 5000))) := by
  refine ⟨by with_unfolding_all rfl, by with_unfolding_all rfl, by with_unfolding_all rfl,
    by with_unfolding_all rfl, by with_unfolding_all rfl, ?_⟩
  apply of_decide_eq_true
  with_unfolding_all rfl

/-- Witness for C4: from the concrete `Rising` state of `cfgA`, a drop of
the step to zero 700 μs into the 1000 μs rising window aborts to
`Release` without a hit event. -/
theorem c4_fast_fall_witness :
    (loop cfgA dRiseA 25700 0).1.now.state = State.Release ∧
    Event.hit 64 ∉ (loop cfgA dRiseA 25700 0).2 := by
  have h := c4_fast_fall cfgA dRiseA 25700 0
    (by with_unfolding_all rfl)
    (by apply of_decide_eq_true; with_unfolding_all rfl)
    (by with_unfolding_all rfl)
    (by apply of_decide_eq_true; with_unfolding_all rfl)
  exact ⟨h.1, h.2.1 64⟩

/-- C3: Terminal-zero guarantee.  Along any execution from reset, a tick
emits a zero-valued confirmed-pressure (resp. raw-pressure) event exactly
when it takes the `Release` to `Idle` transition while a non-zero event of
the same kind has been emitted since the machine last left `Idle` (the
`owedAfter` fold over the preceding ticks of the cycle, or in this very
tick); it is then emitted exactly once (count one), the pressure
bookkeeping is cleared by that same transition, and when no non-zero event
of a kind was emitted during the cycle no terminal zero of that kind is
emitted (count zero). -/
theorem c3_terminal_zero (cfg : Config) (ins : List (Nat × ℚ)) (n : Nat) (rec : TickRec)
    (h : (trace cfg init ins).get? n = some rec) :
    List.count (Event.pressure 0 0) rec.evs =
      (if (clearsB rec &&
          (owedAfter nonzeroConfirmed false ((trace cfg init ins).take n) ||
            nonzeroConfirmed rec.evs)) = true then 1 else 0) ∧
    List.count (Event.pressureRaw 0 0) rec.evs =
      (if (clearsB rec &&
          (owedAfter nonzeroRaw false ((trace cfg init ins).take n) ||
            nonzeroRaw rec.evs)) = true then 1 else 0) ∧
    (clearsB rec = true → rec.post.pressure = {}) := by
  obtain ⟨t, s, hpost, hevs⟩ := trace_shape cfg ins init n rec h
  have hsent : rec.pre.pressure.sent =
      owedAfter nonzeroConfirmed false ((trace cfg init ins).take n) :=
    trace_sent cfg ins init n rec h
  have hraw : rec.pre.pressure.rawSent =
      owedAfter nonzeroRaw false ((trace cfg init ins).take n) :=
    trace_rawSent cfg ins init n rec h
  refine ⟨?_, ?_, ?_⟩
  · rw [hevs, loop_count_pz]
    refine if_congr ?_ rfl rfl
    rw [clearsB, hpost, ← hsent]
    simp [Bool.and_eq_true, decide_eq_true_iff, and_assoc]
  · rw [hevs, loop_count_rz]
    refine if_congr ?_ rfl rfl
    rw [clearsB, hpost, ← hraw]
    simp [Bool.and_eq_true, decide_eq_true_iff, and_assoc]
  · intro hc
    rw [clearsB_iff] at hc
    rw [hpost] at hc ⊢
    exact (loop_clear_eq cfg rec.pre t s hc.1 hc.2).2.1

/-- Witness for C3 on a concrete cycle of `cfgC`: the clearing tick emits
the raw terminal zero exactly once (a non-zero raw event was emitted in
the cycle) and no confirmed terminal zero (no non-zero confirmed event
was). -/
theorem c3_terminal_zero_witness :
    List.count (Event.pressureRaw 0 0)
        (⟨dC2, (run cfgC init insC).1, [Event.pressureRaw 0 0]⟩ : TickRec).evs = 1 ∧
    List.count (Event.pressure 0 0)
        (⟨dC2, (run cfgC init insC).1, [Event.pressureRaw 0 0]⟩ : TickRec).evs = 0 := by
  have h := c3_terminal_zero cfgC insC 2
    ⟨dC2, (run cfgC init insC).1, [Event.pressureRaw 0 0]⟩ (by with_unfolding_all rfl)
  exact ⟨h.2.1.trans (by with_unfolding_all rfl), h.1.trans (by with_unfolding_all rfl)⟩

/-- Counterexample to C7 as stated: the `cfgC` run completes a full
`Idle` to `Rising` to `Release` to `Idle` cycle, yet the final state
differs from the post-`reset()` state: the low-pass filter memory
`history.analog` still holds `1/8` (reset clears it to `0`). -/
theorem c7_cycle_counterexample :
    (run cfgC init (insC.take 1)).1.now.state = State.Rising ∧
    (run cfgC init insC).1.now.state = State.Idle ∧
    (run cfgC init insC).1.history.analog = 1/8 ∧
    init.history.analog = 0 ∧
    (run cfgC init insC).1 ≠ reset init := by
  refine ⟨by with_unfolding_all rfl, by with_unfolding_all rfl, by with_unfolding_all rfl,
    rfl, ?_⟩
  apply of_decide_eq_true
  with_unfolding_all rfl

/-- C7 (amended): after a `Release` to `Idle` transition the `now`,
`pressure`, `rising` and `hit` state groups equal their `reset()` values,
while the `falling` group keeps its value and the `history` group (filter
memory and hysteresis edge) keeps the tick's own measure/send result —
the source clears only four of the six groups at the end of a cycle. -/
theorem c7_cycle_clear (cfg : Config) (d : Drum) (t : Nat) (s : ℚ)
    (hrel : d.now.state = State.Release)
    (hidle : (loop cfg d t s).1.now.state = State.Idle) :
    (loop cfg d t s).1.now = (reset d).now ∧
    (loop cfg d t s).1.pressure = (reset d).pressure ∧
    (loop cfg d t s).1.rising = (reset d).rising ∧
    (loop cfg d t s).1.hit = (reset d).hit ∧
    (loop cfg d t s).1.falling = d.falling ∧
    (loop cfg d t s).1.history = (afterSend cfg d t s).1.history := by
  exact loop_clear_eq cfg d t s hrel hidle

/-- Witness for C7 (amended): the clearing tick of the concrete `cfgC`
cycle zero-fills `pressure` and keeps `falling`. -/
theorem c7_cycle_clear_witness :
    (loop cfgC dC2 51000 0).1.pressure = (reset dC2).pressure ∧
    (loop cfgC dC2 51000 0).1.falling = dC2.falling := by
  have h := c7_cycle_clear cfgC dC2 51000 0
    (by with_unfolding_all rfl) (by with_unfolding_all rfl)
  exact ⟨h.2.1, h.2.2.2.2.1⟩

/-- `sendPressure` on an accepted step change records the measured
fraction and the low byte of the step, emits the raw event exactly when
the new step is non-zero, and emits nothing when it is zero. -/
theorem sendPressure_accept (cfg : Config) (d : Drum) (t : Nat)
    (h1 : ¬d.pressure.step = d.now.step) (h2 : ¬usecSince t d.pressure.usec < 20000) :
    (sendPressure cfg d t).1.pressure.fraction = d.now.fraction ∧
    (sendPressure cfg d t).1.pressure.step = d.now.step % 256 ∧
    (d.now.step ≠ 0 →
      Event.pressureRaw d.now.fraction d.now.step ∈ (sendPressure cfg d t).2) ∧
    (d.now.step = 0 → (sendPressure cfg d t).2 = []) := by
  simp only [sendPressure]
  rw [if_neg h1, if_neg h2]
  by_cases hz : d.now.step = 0
  · rw [if_pos hz]
    exact ⟨rfl, rfl, fun hc => absurd hz hc, fun _ => rfl⟩
  · rw [if_neg hz]
    by_cases he : d.pressure.enabled = true
    · rw [if_pos he]
      refine ⟨rfl, rfl, fun _ => ?_, fun hc => absurd hc hz⟩
      simp
    · rw [if_neg he]
      refine ⟨rfl, rfl, fun _ => ?_, fun hc => absurd hc hz⟩
      simp

/-- `sendPressure` does nothing when the step is unchanged or the 20 ms
rate limit is active. -/
theorem sendPressure_skip (cfg : Config) (d : Drum) (t : Nat)
    (h : d.pressure.step = d.now.step ∨ usecSince t d.pressure.usec < 20000) :
    sendPressure cfg d t = (d, []) := by
  simp only [sendPressure]
  rcases h with h | h
  · rw [if_pos h]
  · by_cases h1 : d.pressure.step = d.now.step
    · rw [if_pos h1]
    · rw [if_neg h1, if_pos h]

/-- When a non-throttled tick does not complete a cycle, the machine
phase neither changes the recorded pressure values nor emits any
pressure-kind event. -/
theorem loop_pressure_keep (cfg : Config) (d : Drum) (t : Nat) (s : ℚ)
    (hth : ¬usecSince t d.now.usec < 500)
    (hncl : ¬(d.now.state = State.Release ∧ (loop cfg d t s).1.now.state = State.Idle)) :
    (loop cfg d t s).1.pressure.fraction = (afterSend cfg d t s).1.pressure.fraction ∧
    (loop cfg d t s).1.pressure.step = (afterSend cfg d t s).1.pressure.step ∧
    (∀ f st, Event.pressure f st ∉ (machineStep cfg (afterSend cfg d t s).1 t).2) ∧
    (∀ f st, Event.pressureRaw f st ∉ (machineStep cfg (afterSend cfg d t s).1 t).2) := by
  rw [loop_eq cfg d t s hth] at hncl ⊢
  by_cases hrel : d.now.state = State.Release
  · by_cases hcl : 0 < (afterSend cfg d t s).1.now.fraction ∨
        usecSince t (afterSend cfg d t s).1.hit.releaseUsec < cfg.hitReleaseUsec
    · rw [machineStep_release_noclear cfg _ t ((afterSend_state cfg d t s).trans hrel) hcl]
      exact ⟨rfl, rfl, fun f st h => by simp at h, fun f st h => by simp at h⟩
    · exfalso
      push_neg at hcl
      rw [machineStep_release_clear cfg _ t ((afterSend_state cfg d t s).trans hrel)
        (not_lt.mpr hcl.1) (not_lt.mpr hcl.2)] at hncl
      exact hncl ⟨hrel, rfl⟩
  · have hrel₁ : (afterSend cfg d t s).1.now.state ≠ State.Release := by
      rw [afterSend_state]
      exact hrel
    have hms := machineStep_pressure_eq cfg (afterSend cfg d t s).1 t hrel₁
    refine ⟨hms.2.2.1, hms.2.2.2.1, ?_, ?_⟩
    · intro f st hmem
      exact hrel₁ (machineStep_pressure_mem cfg _ t f st hmem).2.2
    · intro f st hmem
      exact hrel₁ (machineStep_raw_mem cfg _ t f st hmem).2.2

/-- C9 (amended): `getFraction`/`getStep` read the pressure bookkeeping,
which follows the last accepted step change, not the last emitted event.
Per tick: (a) the getters read `_pressure.fraction`/`_pressure.step`;
(b) a throttled tick changes nothing; (c) a cycle-completing tick zeroes
both; (d) an accepted step change (new measured step differs from the
recorded one and the 20 ms limit has passed) records the measured
fraction and the low byte of the measured step — emitting the raw event
exactly when the new step is non-zero, and emitting no pressure-kind
event at all when the new step is zero even though the getters change
(this silent update is the amendment: the claim asserted the getters
always return the values of the most recent emission); (e) otherwise the
recorded values are unchanged. -/
theorem c9_getters (cfg : Config) (d : Drum) (t : Nat) (s : ℚ) :
    (getFraction (loop cfg d t s).1 = (loop cfg d t s).1.pressure.fraction ∧
      getStep (loop cfg d t s).1 = (loop cfg d t s).1.pressure.step) ∧
    (usecSince t d.now.usec < 500 → (loop cfg d t s).1.pressure = d.pressure) ∧
    (d.now.state = State.Release ∧ (loop cfg d t s).1.now.state = State.Idle →
      getFraction (loop cfg d t s).1 = 0 ∧ getStep (loop cfg d t s).1 = 0) ∧
    (¬(d.now.state = State.Release ∧ (loop cfg d t s).1.now.state = State.Idle) →
      ¬usecSince t d.now.usec < 500 →
      (afterMeasure cfg d t s).now.step ≠ d.pressure.step →
      ¬usecSince t d.pressure.usec < 20000 →
      getFraction (loop cfg d t s).1 = (afterMeasure cfg d t s).now.fraction ∧
      getStep (loop cfg d t s).1 = (afterMeasure cfg d t s).now.step % 256 ∧
      ((afterMeasure cfg d t s).now.step ≠ 0 →
        Event.pressureRaw (afterMeasure cfg d t s).now.fraction
          (afterMeasure cfg d t s).now.step ∈ (loop cfg d t s).2) ∧
      ((afterMeasure cfg d t s).now.step = 0 →
        ∀ f st, Event.pressureRaw f st ∉ (loop cfg d t s).2 ∧
          Event.pressure f st ∉ (loop cfg d t s).2)) ∧
    (¬(d.now.state = State.Release ∧ (loop cfg d t s).1.now.state = State.Idle) →
      ¬usecSince t d.now.usec < 500 →
      ((afterMeasure cfg d t s).now.step = d.pressure.step ∨
        usecSince t d.pressure.usec < 20000) →
      getFraction (loop cfg d t s).1 = d.pressure.fraction ∧
      getStep (loop cfg d t s).1 = d.pressure.step) := by
  refine ⟨⟨rfl, rfl⟩, ?_, ?_, ?_, ?_⟩
  · intro hth
    rw [loop_throttle cfg d t s hth]
  · intro hcl
    have h := loop_clear_eq cfg d t s hcl.1 hcl.2
    rw [getFraction, getStep, h.2.1]
    exact ⟨rfl, rfl⟩
  · intro hncl hth hne hrate
    have hkeep := loop_pressure_keep cfg d t s hth hncl
    have hacc := sendPressure_accept cfg (afterMeasure cfg d t s) t
      (by rw [afterMeasure_pressure]; exact fun hc => hne hc.symm)
      (by rw [afterMeasure_pressure]; exact hrate)
    refine ⟨?_, ?_, ?_, ?_⟩
    · rw [getFraction, hkeep.1]
      exact hacc.1
    · rw [getStep, hkeep.2.1]
      exact hacc.2.1
    · intro hz
      rw [loop_eq cfg d t s hth]
      exact List.mem_append_left _ (hacc.2.2.1 hz)
    · intro hz f st
      rw [loop_eq cfg d t s hth]
      have hevs1 : (afterSend cfg d t s).2 = [] := hacc.2.2.2 hz
      constructor
      · intro hmem
        rcases List.mem_append.mp hmem with hm | hm
        · rw [hevs1] at hm
          simp at hm
        · exact hkeep.2.2.2 f st hm
      · intro hmem
        rcases List.mem_append.mp hmem with hm | hm
        · rw [hevs1] at hm
          simp at hm
        · exact hkeep.2.2.1 f st hm
  · intro hncl hth hskip
    have hkeep := loop_pressure_keep cfg d t s hth hncl
    have hsk : sendPressure cfg (afterMeasure cfg d t s) t = (afterMeasure cfg d t s, []) := by
      refine sendPressure_skip cfg _ t ?_
      rw [afterMeasure_pressure]
      rcases hskip with h | h
      · exact Or.inl h.symm
      · exact Or.inr h
    have h1 : (afterSend cfg d t s).1 = afterMeasure cfg d t s := by
      rw [afterSend, hsk]
    constructor
    · rw [getFraction, hkeep.1, h1, afterMeasure_pressure]
    · rw [getStep, hkeep.2.1, h1, afterMeasure_pressure]

/-- Counterexample to C9 as stated: in the `cfgD` run the only emitted
pressure event is `pressureRaw 0.9 3`, the cycle has not returned to
`Idle` (the machine is in `Release`, having left `Idle` at the first
tick), yet `getStep` returns `0` and `getFraction` returns `0`, not the
values `3` and `0.9` passed to the most recent callback: the silent step
change to zero in the second tick overwrote the bookkeeping without any
event. -/
theorem c9_getters_counterexample :
    (run cfgD init insD).2 = [Event.pressureRaw (9/10) 3] ∧
    (run cfgD init (insD.take 1)).1.now.state = State.Rising ∧
    (run cfgD init insD).1.now.state = State.Release ∧
    getStep (run cfgD init insD).1 = 0 ∧
    getFraction (run cfgD init insD).1 = 0 := by
  refine ⟨?_, ?_, ?_, ?_, ?_⟩ <;> with_unfolding_all rfl

/-- Witness for C9 (amended): the second `cfgD` tick is an accepted step
change to zero — the getters change to zero and no event is emitted. -/
theorem c9_getters_witness :
    getStep (loop cfgD (run cfgD init (insD.take 1)).1 50000 0).1 = 0 % 256 ∧
    (∀ f st, Event.pressureRaw f st ∉
        (loop cfgD (run cfgD init (insD.take 1)).1 50000 0).2 ∧
      Event.pressure f st ∉ (loop cfgD (run cfgD init (insD.take 1)).1 50000 0).2) := by
  have h := (c9_getters cfgD (run cfgD init (insD.take 1)).1 50000 0).2.2.2.1
    (by
      intro hc
      exact absurd ((by with_unfolding_all rfl :
        (run cfgD init (insD.take 1)).1.now.state = State.Rising) ▸ hc.1)
        (by intro hx; exact State.noConfusion hx))
    (by apply of_decide_eq_true; with_unfolding_all rfl)
    (by apply of_decide_eq_true; with_unfolding_all rfl)
    (by apply of_decide_eq_true; with_unfolding_all rfl)
  refine ⟨?_, ?_⟩
  · rw [h.2.1]
    congr 1
    with_unfolding_all rfl
  · exact h.2.2.2 (by with_unfolding_all rfl)

/-- The measure phase in the middle (in-range) branch: fraction becomes
`condFraction`, the step is requantized only outside the hysteresis band,
and the filter memory advances while the lag edge stays. -/
theorem afterMeasure_mid (cfg : Config) (d : Drum) (t : Nat) (s : ℚ)
    (h1 : ¬(d.history.analog * (1 - cfg.alpha) + s * cfg.alpha < cfg.pressureMin))
    (h2 : ¬(d.history.analog * (1 - cfg.alpha) + s * cfg.alpha > cfg.pressureMax)) :
    afterMeasure cfg d t s =
      { d with
        now := { d.now with
          usec := t
          analog := s
          fraction := condFraction cfg d s
          step := if cfg.lag ≤ |condFraction cfg d s - d.history.lag| then
              (roundAway (condFraction cfg d s * ((cfg.nSteps : ℚ) - 1))).toNat
            else d.pressure.step },
        history := { analog := d.history.analog * (1 - cfg.alpha) + s * cfg.alpha,
                     lag := d.history.lag } } := by
  rw [afterMeasure]
  simp only [measure, condFraction]
  rw [if_neg h1, if_neg h2]

/-- Outside the cycle-clearing branch, a machine step never changes the
quantized step. -/
theorem machineStep_step_noclear (cfg : Config) (d : Drum) (t : Nat)
    (h : d.now.state ≠ State.Release) :
    (machineStep cfg d t).1.now.step = d.now.step := by
  rcases hs : d.now.state
  case Release => exact absurd hs h
  all_goals
    simp only [machineStep, hs]
    repeat' split
    all_goals rfl

/-- C6 (amended): hysteresis suppression applies to reversals.  After an
emission at fraction `f₁` in either direction — upward, snapping the lag
edge to `f₁ - lag`, or downward, snapping it to `f₁ + lag` — with the
quantized and recorded steps both at the emitted step `st₁`, a tick whose
conditioned fraction moves back toward the edge by less than `lag`
(opposite to the last emitted motion: below `f₁` after an upward
emission, above `f₁` after a downward one) retains step `st₁` and emits
no pressure event of either kind.  The amendment: the claim asserted this
for changes in the *same* direction as the last motion, but the snapped
edge tracks same-direction motion immediately (see the counterexample);
only reversals smaller than the lag are suppressed. -/
theorem c6_hysteresis (cfg : Config) (d : Drum) (t : Nat) (s : ℚ) (f₁ : ℚ) (st₁ : Nat)
    (hlag : 0 < cfg.lag)
    (hstep : d.now.step = st₁)
    (hpstep : d.pressure.step = st₁)
    (h1 : ¬(d.history.analog * (1 - cfg.alpha) + s * cfg.alpha < cfg.pressureMin))
    (h2 : ¬(d.history.analog * (1 - cfg.alpha) + s * cfg.alpha > cfg.pressureMax))
    (hband :
      (d.history.lag = f₁ - cfg.lag ∧ f₁ - cfg.lag < condFraction cfg d s ∧
        condFraction cfg d s < f₁) ∨
      (d.history.lag = f₁ + cfg.lag ∧ f₁ < condFraction cfg d s ∧
        condFraction cfg d s < f₁ + cfg.lag))
    (hpos : 0 < condFraction cfg d s) :
    (loop cfg d t s).1.now.step = st₁ ∧
    ∀ f st, Event.pressureRaw f st ∉ (loop cfg d t s).2 ∧
      Event.pressure f st ∉ (loop cfg d t s).2 := by
  by_cases hth : usecSince t d.now.usec < 500
  · rw [loop_throttle cfg d t s hth]
    exact ⟨hstep, fun f st => ⟨by simp, by simp⟩⟩
  · have hmid := afterMeasure_mid cfg d t s h1 h2
    have hret : ¬cfg.lag ≤ |condFraction cfg d s - d.history.lag| := by
      rcases hband with ⟨he, hlo, hhi⟩ | ⟨he, hlo, hhi⟩
      · rw [he, abs_of_pos (by linarith)]
        exact not_le.mpr (by linarith)
      · rw [he, abs_of_neg (by linarith)]
        exact not_le.mpr (by linarith)
    have hm_step : (afterMeasure cfg d t s).now.step = st₁ := by
      rw [hmid]
      show (if cfg.lag ≤ |condFraction cfg d s - d.history.lag| then
          (roundAway (condFraction cfg d s * ((cfg.nSteps : ℚ) - 1))).toNat
        else d.pressure.step) = st₁
      rw [if_neg hret]
      exact hpstep
    have hm_frac : (afterMeasure cfg d t s).now.fraction = condFraction cfg d s := by
      rw [hmid]
    have hsk : sendPressure cfg (afterMeasure cfg d t s) t = (afterMeasure cfg d t s, []) :=
      sendPressure_skip cfg _ t (Or.inl (by rw [afterMeasure_pressure, hpstep, hm_step]))
    have h1e : (afterSend cfg d t s).1 = afterMeasure cfg d t s := by
      rw [afterSend, hsk]
    have hevs1 : (afterSend cfg d t s).2 = [] := by
      rw [afterSend, hsk]
    have hfrac2 : (afterSend cfg d t s).1.now.fraction = condFraction cfg d s := by
      rw [h1e, hm_frac]
    have hncl : ¬(d.now.state = State.Release ∧ (loop cfg d t s).1.now.state = State.Idle) := by
      rintro ⟨hrel, hidle⟩
      rw [loop_eq cfg d t s hth] at hidle
      by_cases hclc : 0 < (afterSend cfg d t s).1.now.fraction ∨
          usecSince t (afterSend cfg d t s).1.hit.releaseUsec < cfg.hitReleaseUsec
      · rw [machineStep_release_noclear cfg _ t ((afterSend_state cfg d t s).trans hrel) hclc]
          at hidle
        rw [afterSend_state cfg d t s, hrel] at hidle
        exact State.noConfusion hidle
      · push_neg at hclc
        rw [hfrac2] at hclc
        linarith [hclc.1]
    have hkeep := loop_pressure_keep cfg d t s hth hncl
    constructor
    · rw [loop_eq cfg d t s hth]
      by_cases hrel : d.now.state = State.Release
      · have hclc : 0 < (afterSend cfg d t s).1.now.fraction ∨
            usecSince t (afterSend cfg d t s).1.hit.releaseUsec < cfg.hitReleaseUsec :=
          Or.inl (by rw [hfrac2]; exact hpos)
        rw [machineStep_release_noclear cfg _ t ((afterSend_state cfg d t s).trans hrel) hclc]
        rw [h1e]
        exact hm_step
      · rw [machineStep_step_noclear cfg _ t (by rw [afterSend_state]; exact hrel)]
        rw [h1e]
        exact hm_step
    · intro f st
      rw [loop_eq cfg d t s hth]
      constructor
      · intro hmem
        rcases List.mem_append.mp hmem with hm | hm
        · rw [hevs1] at hm
          simp at hm
        · exact hkeep.2.2.2 f st hm
      · intro hmem
        rcases List.mem_append.mp hmem with hm | hm
        · rw [hevs1] at hm
          simp at hm
        · exact hkeep.2.2.1 f st hm

/-- Counterexample to C6 as stated: with `cfgB` (`lag = 0.05`), after a
step is emitted at fraction `0.5` (step 100) moving upward, the next tick
moves the fraction to `0.54` — a change of `0.04 < lag` in the *same*
direction as the last emitted motion — and a new step *is* emitted
(`pressureRaw 0.54 108`), because the emission snapped the hysteresis
edge to `0.45` and `|0.54 - 0.45| ≥ lag`. -/
theorem c6_hysteresis_counterexample :
    0 < cfgB.lag ∧
    (27/50 - 1/2 : ℚ) < cfgB.lag ∧
    (0 : ℚ) < 27/50 - 1/2 ∧
    (run cfgB init [(25000, 1/2), (50000, 27/50)]).2 =
      [Event.pressureRaw (1/2) 100, Event.pressureRaw (27/50) 108] := by
  refine ⟨?_, ?_, ?_, by with_unfolding_all rfl⟩ <;>
    · apply of_decide_eq_true
      with_unfolding_all rfl

/-- Witness for C6 (amended), both directions on `cfgB`: after the
upward emission of step 100 at fraction `0.5` (edge `0.45`), a reversal
down to `0.48` retains step 100 and emits nothing; after the downward
emission of step 60 at fraction `0.3` (edge `0.35`), a reversal up to
`0.32` retains step 60 and emits nothing. -/
theorem c6_hysteresis_witness :
    ((loop cfgB dB1 50000 (12/25)).1.now.step = 100 ∧
      Event.pressureRaw (12/25) 96 ∉ (loop cfgB dB1 50000 (12/25)).2) ∧
    ((loop cfgB dB2 75000 (8/25)).1.now.step = 60 ∧
      Event.pressureRaw (8/25) 64 ∉ (loop cfgB dB2 75000 (8/25)).2) := by
  have hup := c6_hysteresis cfgB dB1 50000 (12/25) (1/2) 100
    (by apply of_decide_eq_true; with_unfolding_all rfl)
    (by with_unfolding_all rfl)
    (by with_unfolding_all rfl)
    (by apply of_decide_eq_true; with_unfolding_all rfl)
    (by apply of_decide_eq_true; with_unfolding_all rfl)
    (Or.inl ⟨by with_unfolding_all rfl,
      by apply of_decide_eq_true; with_unfolding_all rfl,
      by apply of_decide_eq_true; with_unfolding_all rfl⟩)
    (by apply of_decide_eq_true; with_unfolding_all rfl)
  have hdn := c6_hysteresis cfgB dB2 75000 (8/25) (3/10) 60
    (by apply of_decide_eq_true; with_unfolding_all rfl)
    (by with_unfolding_all rfl)
    (by with_unfolding_all rfl)
    (by apply of_decide_eq_true; with_unfolding_all rfl)
    (by apply of_decide_eq_true; with_unfolding_all rfl)
    (Or.inr ⟨by with_unfolding_all rfl,
      by apply of_decide_eq_true; with_unfolding_all rfl,
      by apply of_decide_eq_true; with_unfolding_all rfl⟩)
    (by apply of_decide_eq_true; with_unfolding_all rfl)
  exact ⟨⟨hup.1, (hup.2 (12/25) 96).1⟩, ⟨hdn.1, (hdn.2 (8/25) 64).1⟩⟩

/-- The recorded pressure step after `sendPressure` is either unchanged
or the low byte of the current step. -/
theorem sendPressure_pstep (cfg : Config) (d : Drum) (t : Nat) :
    (sendPressure cfg d t).1.pressure.step = d.pressure.step ∨
      (sendPressure cfg d t).1.pressure.step = d.now.step % 256 := by
  simp only [sendPressure]
  repeat' split
  all_goals first
  | exact Or.inl rfl
  | exact Or.inr rfl

/-- The measure phase keeps the step below the resolution: the clamped
branches produce `0` or `nSteps - 1`, the requantized branch rounds a
fraction the correction curve keeps inside `[0, 1]`, and the retention
branch reuses the recorded step. -/
theorem measure_stepInv (cfg : Config) (d : Drum) (s : ℚ)
    (hn : 1 ≤ cfg.nSteps) (hpm : cfg.pressureMin < cfg.pressureMax)
    (hpow : PowUnit cfg) (h : StepInv cfg d) : StepInv cfg (measure cfg d s) := by
  refine ⟨?_, ?_⟩
  · simp only [measure]
    split
    · exact hn
    split
    · show cfg.nSteps - 1 < cfg.nSteps
      omega
    · rename_i h1 h2
      show (if cfg.lag ≤ |condFraction cfg d s - d.history.lag| then
          (roundAway (condFraction cfg d s * ((cfg.nSteps : ℚ) - 1))).toNat
        else d.pressure.step) < cfg.nSteps
      split
      · have hA_lo : cfg.pressureMin ≤ d.history.analog * (1 - cfg.alpha) + s * cfg.alpha :=
          not_lt.mp h1
        have hA_hi : d.history.analog * (1 - cfg.alpha) + s * cfg.alpha ≤ cfg.pressureMax :=
          not_lt.mp h2
        have hden : (0:ℚ) < cfg.pressureMax - cfg.pressureMin := sub_pos.mpr hpm
        have hbase0 : (0:ℚ) ≤ (d.history.analog * (1 - cfg.alpha) + s * cfg.alpha -
            cfg.pressureMin) / (cfg.pressureMax - cfg.pressureMin) :=
          div_nonneg (by linarith) hden.le
        have hbase1 : (d.history.analog * (1 - cfg.alpha) + s * cfg.alpha -
            cfg.pressureMin) / (cfg.pressureMax - cfg.pressureMin) ≤ 1 := by
          rw [div_le_one hden]
          linarith
        have hf := hpow _ hbase0 hbase1
        have hf0 : (0:ℚ) ≤ condFraction cfg d s := hf.1
        have hf1 : condFraction cfg d s ≤ 1 := hf.2
        have hn1 : (1:ℚ) ≤ (cfg.nSteps : ℚ) := by exact_mod_cast hn
        have hy0 : (0:ℚ) ≤ condFraction cfg d s * ((cfg.nSteps : ℚ) - 1) :=
          mul_nonneg hf0 (by linarith)
        have hy1 : condFraction cfg d s * ((cfg.nSteps : ℚ) - 1) ≤ (cfg.nSteps : ℚ) - 1 :=
          mul_le_of_le_one_left (by linarith) hf1
        rw [roundAway, if_pos (by linarith : (0:ℚ) ≤
          condFraction cfg d s * ((cfg.nSteps : ℚ) - 1))]
        have hfl : ⌊condFraction cfg d s * ((cfg.nSteps : ℚ) - 1) + 1 / 2⌋ <
            (cfg.nSteps : ℤ) := by
          apply Int.floor_lt.mpr
          push_cast
          linarith
        have hfl0 : (0:ℤ) ≤ ⌊condFraction cfg d s * ((cfg.nSteps : ℚ) - 1) + 1 / 2⌋ :=
          Int.floor_nonneg.mpr (by linarith)
        omega
      · exact h.2
  · rw [measure_pressure]
    exact h.2

theorem loop_stepInv (cfg : Config) (d : Drum) (t : Nat) (s : ℚ)
    (hn : 1 ≤ cfg.nSteps) (hpm : cfg.pressureMin < cfg.pressureMax)
    (hpow : PowUnit cfg) (h : StepInv cfg d) : StepInv cfg (loop cfg d t s).1 := by
  by_cases hth : usecSince t d.now.usec < 500
  · rw [loop_throttle cfg d t s hth]
    exact h
  · rw [loop_eq cfg d t s hth]
    have h1 : StepInv cfg (afterMeasure cfg d t s) :=
      measure_stepInv cfg _ s hn hpm hpow ⟨h.1, h.2⟩
    have h2 : StepInv cfg (afterSend cfg d t s).1 := by
      constructor
      · rw [afterSend_now]
        exact h1.1
      · rcases sendPressure_pstep cfg (afterMeasure cfg d t s) t with hc | hc
      
        · rw [afterSend, hc]
          exact h1.2
        · rw [afterSend, hc]
          exact lt_of_le_of_lt (Nat.mod_le _ _) h1.1
    constructor
    · rcases machineStep_step_cases cfg (afterSend cfg d t s).1 t with hc | hc
      · rw [hc]
        exact h2.1
      · rw [hc]
        omega
    · rcases machineStep_pstep_cases cfg (afterSend cfg d t s).1 t with hc | hc
      · rw [hc]
        exact h2.2
      · rw [hc]
        omega

theorem run_stepInv (cfg : Config)
    (hn : 1 ≤ cfg.nSteps) (hpm : cfg.pressureMin < cfg.pressureMax) (hpow : PowUnit cfg) :
    ∀ (ins : List (Nat × ℚ)) (d : Drum),
      StepInv cfg d → StepInv cfg (run cfg d ins).1 := by
  intro ins
  induction ins with
  | nil => intro d h; exact h
  | cons p rest ih =>
    intro d h
    rcases p with ⟨t, s⟩
    exact ih (loop cfg d t s).1 (loop_stepInv cfg d t s hn hpm hpow h)

/-- C8 (amended): Step-range invariant under a unit-interval correction
curve.  For every configuration with `nSteps ≥ 1`,
`pressure.min < pressure.max` and a pressure correction curve mapping
`[0, 1]` into itself (`PowUnit` — true of `powf` with any non-negative
exponent, the amendment: a negative exponent escapes the unit interval
and breaks the invariant, see the counterexample), every reachable state
has `now.step ∈ [0, nSteps-1]`, and every further tick preserves this. -/
theorem c8_step_range (cfg : Config) (d : Drum)
    (hn : 1 ≤ cfg.nSteps) (hpm : cfg.pressureMin < cfg.pressureMax)
    (hpow : PowUnit cfg) (hr : Reachable cfg d) :
    d.now.step ≤ cfg.nSteps - 1 ∧
    ∀ t s, (loop cfg d t s).1.now.step ≤ cfg.nSteps - 1 := by
  obtain ⟨ins, hins⟩ := hr
  have hinv : StepInv cfg (run cfg init ins).1 :=
    run_stepInv cfg hn hpm hpow ins init ⟨hn, hn⟩
  rw [hins] at hinv
  constructor
  · have := hinv.1
    omega
  · intro t s
    have := (loop_stepInv cfg d t s hn hpm hpow hinv).1
    omega

/-- Witness for C8 (amended) on `cfgA` (identity curve, which maps the
unit interval into itself) at the reachable `Hit` state. -/
theorem c8_step_range_witness :
    dHitA.now.step ≤ cfgA.nSteps - 1 ∧
    (loop cfgA dHitA 27000 (1/2)).1.now.step ≤ cfgA.nSteps - 1 := by
  have h := c8_step_range cfgA dHitA
    (by apply of_decide_eq_true; with_unfolding_all rfl)
    (by apply of_decide_eq_true; with_unfolding_all rfl)
    (fun x hx hx1 => ⟨hx, hx1⟩)
    ⟨insA2, rfl⟩
  exact ⟨h.1, h.2 27000 (1/2)⟩

/-- Counterexample to C8 as stated: `cfgE` has `nSteps = 101 ≥ 1` and
`pressure.min < pressure.max`, but its correction exponent is `-1`
(`powf x (-1) = x⁻¹`), so a single tick with sample `0.1` computes
fraction `10` and quantized step `1000`, far above `nSteps - 1 = 100` —
the claim quantified over every such configuration without constraining
the exponent. -/
theorem c8_step_range_counterexample :
    1 ≤ cfgE.nSteps ∧ cfgE.pressureMin < cfgE.pressureMax ∧
    Reachable cfgE (run cfgE init [(1000, 1/10)]).1 ∧
    ¬(run cfgE init [(1000, 1/10)]).1.now.step ≤ cfgE.nSteps - 1 := by
  refine ⟨?_, ?_, ⟨[(1000, 1/10)], rfl⟩, ?_⟩ <;>
    · apply of_decide_eq_true
      with_unfolding_all rfl

end V2Drum
